import Mathlib

/-!
# Verification of the survey-analyzer core (`src/core/data_loader.py`, `src/core/statistics.py`)

A shallow embedding of the question auto-classifier and the weighted statistics
engine, over exact rationals.

Modelling conventions:
* a dataframe cell is `Option String`; `none` is a pandas missing value (NaN);
* Python floats are modelled exactly: a parsed numeric string becomes a `ℚ`
  (binary floating-point rounding is out of scope), with the IEEE specials
  `nan`, `inf`, `-inf` kept as explicit constructors of `PyFloat`, because
  `float('nan')`/`float('inf')` succeed in Python and their comparison
  behaviour (all comparisons with `nan` are false) is observable in
  `_detect_column_type` via `min`/`max`;
* Python dicts are compared by content, not insertion order, so dict-valued
  payloads are canonicalised to key-sorted association lists;
* Python sets of ints are canonicalised to sorted duplicate-free lists;
* a raised exception is an explicit error value (`StatValue.err`, `Except.error`).
-/

/-- The ASCII whitespace characters stripped by Python's `str.strip()`
(unicode-only whitespace is out of scope for this data). -/
def isPySpace (c : Char) : Bool :=
  c == ' ' || c == '\t' || c == '\n' || c == '\r' || c == '\x0b' || c == '\x0c'

/-- `str.strip()` on a character list. -/
def pyStripChars (cs : List Char) : List Char :=
  ((cs.dropWhile isPySpace).reverse.dropWhile isPySpace).reverse

/-- `str.strip()`. -/
def pyStrip (s : String) : String := String.mk (pyStripChars s.data)

/-- `str.lower()` for ASCII letters and the Polish letters appearing in the
source's keyword lists. -/
def pyLowerChar (c : Char) : Char :=
  if 'A' ≤ c ∧ c ≤ 'Z' then Char.ofNat (c.toNat + 32)
  else if c = 'Ą' then 'ą' else if c = 'Ć' then 'ć' else if c = 'Ę' then 'ę'
  else if c = 'Ł' then 'ł' else if c = 'Ń' then 'ń' else if c = 'Ó' then 'ó'
  else if c = 'Ś' then 'ś' else if c = 'Ź' then 'ź' else if c = 'Ż' then 'ż'
  else c

/-- `str.lower()`. -/
def pyLower (s : String) : String := String.mk (s.data.map pyLowerChar)

/-- Python's substring test `pat in s` on character lists. -/
def listContains (s pat : List Char) : Bool :=
  if pat.isPrefixOf s then true
  else match s with
    | [] => false
    | _ :: t => listContains t pat

/-- Python's substring test `pat in s`. -/
def strContains (s pat : String) : Bool := listContains s.data pat.data

/-- Code-point lexicographic `≤` on character lists: Python's string ordering. -/
def charsLe : List Char → List Char → Bool
  | [], _ => true
  | _ :: _, [] => false
  | a :: as, b :: bs =>
      if a.toNat < b.toNat then true
      else if b.toNat < a.toNat then false
      else charsLe as bs

/-- Code-point lexicographic `≤` on strings (Python's `sorted` order). -/
def strLe (a b : String) : Prop := charsLe a.data b.data = true

instance : DecidableRel strLe := fun a b => by unfold strLe; infer_instance

/-- Distinct elements in first-seen order (pandas `unique` /
`value_counts(sort=False)` category order). -/
def firstSeen (l : List String) : List String :=
  l.foldl (fun acc a => if a ∈ acc then acc else acc ++ [a]) []

/-- Banker's rounding of a rational to the nearest integer (ties to even),
the rounding used by Python's `round` and NumPy's `round`. -/
def roundHalfEven (q : ℚ) : ℤ :=
  let f := ⌊q⌋
  let r := q - f
  if r < 1/2 then f
  else if 1/2 < r then f + 1
  else if f % 2 = 0 then f else f + 1

/-- `round(q, d)` / `np.round(q, d)`. -/
def roundDec (d : ℕ) (q : ℚ) : ℚ :=
  (roundHalfEven (q * (10 : ℚ) ^ d) : ℚ) / (10 : ℚ) ^ d

/-! ## Python floats -/

/-- A Python float value, exact: finite values are rationals, the IEEE
specials are explicit. -/
inductive PyFloat where
  | num (q : ℚ)
  | nan
  | inf
  | ninf
deriving DecidableEq

/-- Python `<` on floats: every comparison involving `nan` is false. -/
def pyLt : PyFloat → PyFloat → Bool
  | .num a, .num b => a < b
  | .num _, .inf => true
  | .ninf, .num _ => true
  | .ninf, .inf => true
  | _, _ => false

/-- One step of Python's builtin `min`: keep the current value unless the
next element compares strictly below it. -/
def pyMin2 (cur x : PyFloat) : PyFloat := if pyLt x cur then x else cur

/-- One step of Python's builtin `max`. -/
def pyMax2 (cur x : PyFloat) : PyFloat := if pyLt cur x then x else cur

/-- Python `min(list)`: fold from the first element.  Order-dependent when
`nan` is present, exactly like the builtin. -/
def listPyMin : List PyFloat → PyFloat
  | [] => .num 0
  | h :: t => t.foldl pyMin2 h

/-- Python `max(list)`. -/
def listPyMax : List PyFloat → PyFloat
  | [] => .num 0
  | h :: t => t.foldl pyMax2 h

/-- The numeric value of a digit run. -/
def digitsVal (ds : List Char) : ℕ :=
  ds.foldl (fun a c => a * 10 + (c.toNat - 48)) 0

/-- Parse an unsigned float body (`float()` grammar: `inf`/`infinity`/`nan`,
or `digits[.digits][e[±]digits]` with at least one mantissa digit; digit-group
underscores are out of scope). -/
def pyFloatCore (cs : List Char) : Option PyFloat :=
  let lower := cs.map pyLowerChar
  if lower = "inf".data ∨ lower = "infinity".data then some .inf
  else if lower = "nan".data then some .nan
  else
    let ds1 := cs.takeWhile Char.isDigit
    let r1 := cs.drop ds1.length
    let (ds2, r2) := match r1 with
      | '.' :: t => (t.takeWhile Char.isDigit, t.drop (t.takeWhile Char.isDigit).length)
      | _ => ([], r1)
    if ds1.isEmpty ∧ ds2.isEmpty then none
    else
      let mant : ℚ := (digitsVal (ds1 ++ ds2) : ℚ) / (10 : ℚ) ^ ds2.length
      match r2 with
      | [] => some (.num mant)
      | e :: t =>
        if e = 'e' ∨ e = 'E' then
          let (esign, t2) : ℤ × List Char := match t with
            | '+' :: u => (1, u)
            | '-' :: u => (-1, u)
            | _ => (1, t)
          let eds := t2.takeWhile Char.isDigit
          if eds.isEmpty ∨ ¬ t2.drop eds.length = [] then none
          else some (.num (mant * (10 : ℚ) ^ (esign * (digitsVal eds : ℤ))))
        else none

/-- Python `float(s)`: strip, optional sign, then the float body;
`none` models a raised `ValueError`. -/
def pyFloat (s : String) : Option PyFloat :=
  let cs := pyStripChars s.data
  let (neg, cs2) : Bool × List Char := match cs with
    | '+' :: t => (false, t)
    | '-' :: t => (true, t)
    | _ => (false, cs)
  (pyFloatCore cs2).map fun v =>
    if neg then
      match v with
      | .num q => .num (-q)
      | .inf => .ninf
      | .ninf => .inf
      | .nan => .nan
    else v

/-! ## Column signature detector (`_detect_column_type`) -/

/-- `SPECIAL_VALUES` from `data_loader.py`. -/
def SPECIAL_VALUES : List String :=
  ["nie wiem", "nie wiem/ nie znam", "nie wiem/nie znam", "nie wiem/nie znam ",
   "trudno powiedzieć", "nie wiem/ trudno powiedzieć", "nie wiem, trudno powiedzieć",
   "odmowa odpowiedzi", "odmowa", "-", "", "nan", "none", "nie dotyczy", "nd", "n/d"]

/-- `LIKERT_PREFIX_RE = re.compile(r'^(\d+)\s*:\s*(.+)')` applied with
`re.match`, returning the integer code and the label `m.group(2).strip()`
(only the stripped label is ever used by the source).  Without `re.DOTALL`
the `.` of the label group stops at a newline; the backtracking of the
greedy `\s*` before a `.+` group is reproduced. -/
def likertMatch (s : String) : Option (ℕ × String) :=
  let cs := s.data
  let ds := cs.takeWhile Char.isDigit
  if ds.isEmpty then none
  else
    let r1 := (cs.drop ds.length).dropWhile isPySpace
    match r1 with
    | ':' :: t =>
      let k := (t.takeWhile isPySpace).length
      if k < t.length then
        some (digitsVal ds, pyStrip (String.mk ((t.drop k).takeWhile (· != '\n'))))
      else
        -- tail entirely whitespace: `.+` can still match a whitespace char
        -- that is not a newline; the resulting label strips to "".
        if t.any (· != '\n') then some (digitsVal ds, "") else none
    | _ => none

/-- A column type signature: the dict returned by `_detect_column_type`,
as a closed variant type.  Dict/set payloads are canonicalised:
`scale_labels` is key-sorted, `special_numeric` is sorted and duplicate-free
(Python dict/set equality ignores order). -/
inductive ColType where
  | empty
  | multipleChoice
  | likert (scaleMin scaleMax : ℕ) (scaleLabels : List (ℕ × String)) (special : List ℕ)
  | numericScale (scaleMin scaleMax : PyFloat)
  | openText (nUnique : ℕ)
  | singleChoice (categories : List String) (nUnique : ℕ)
deriving DecidableEq

/-- The `'type'` string of a signature, as used in the grouping automaton. -/
def ctag : ColType → String
  | .empty => "empty"
  | .multipleChoice => "multiple_choice"
  | .likert _ _ _ _ => "likert"
  | .numericScale _ _ => "numeric_scale"
  | .openText _ => "open_text"
  | .singleChoice _ _ => "single_choice"

/-- The last-assignment-wins dict insertion `labels[n] = l`. -/
def assocUpdate (acc : List (ℕ × String)) (n : ℕ) (l : String) : List (ℕ × String) :=
  match acc with
  | [] => [(n, l)]
  | (m, s) :: t => if m = n then (n, l) :: t else (m, s) :: assocUpdate t n l

/-- The cue substrings marking a likert code as a sentinel ("don't know" /
refusal / "hard to say"). -/
def SENTINEL_CUES : List String := ["nie wiem", "odmowa", "trudno"]

/-- The body of `_detect_column_type` on the cleaned value list
(`series.dropna().astype(str).str.strip()`, blanks removed). -/
def detectValues (values : List String) : ColType :=
  if values.length = 0 then .empty
  else if values.all (fun v => v == "MENTIONED" || v == "NOT MENTIONED") then .multipleChoice
  else
    let likertCount := values.countP (fun v => (likertMatch v).isSome)
    if 5 * likertCount > 2 * values.length then
      -- `likert_count > len(values) * 0.4` (0.4 = 2/5; exact, see design notes)
      let pairs := values.filterMap likertMatch
      let nums := pairs.map Prod.fst
      let labels := pairs.foldl (fun acc p => assocUpdate acc p.1 p.2) []
      let allNums := List.insertionSort (· ≤ ·) nums.dedup
      let special := allNums.filter fun n =>
        SENTINEL_CUES.any fun sv => strContains (pyLower ((labels.lookup n).getD "")) sv
      let validNums := allNums.filter (fun n => ¬ n ∈ special)
      let boundSrc := if validNums.isEmpty then allNums else validNums
      .likert ((boundSrc.min?).getD 0) ((boundSrc.max?).getD 0)
        (allNums.filterMap fun n => (labels.lookup n).map fun l => (n, l))
        special
    else
      let numericVals := values.filterMap pyFloat
      let textVals := values.filter fun v =>
        (pyFloat v).isNone && !(SPECIAL_VALUES.contains (pyStrip (pyLower v)))
      if 2 * numericVals.length > values.length ∧ textVals.length = 0 then
        .numericScale (listPyMin numericVals) (listPyMax numericVals)
      else
        let nUnique := values.dedup.length
        if nUnique > 15 then .openText nUnique
        else .singleChoice (List.insertionSort strLe values.dedup) nUnique

/-- The cleaning pipeline
`series.dropna().astype(str).str.strip()` with blanks removed. -/
def procVals (cells : List (Option String)) : List String :=
  ((cells.filterMap id).map pyStrip).filter fun s => s != ""

/-- `_detect_column_type(series)`: clean the raw cells, then classify. -/
def detect_column_type (cells : List (Option String)) : ColType :=
  detectValues (procVals cells)

/-! ## Header parser (`_split_qid_header`) -/

/-- ASCII `[A-Z]`. -/
def isUpperAscii (c : Char) : Bool := if 'A' ≤ c ∧ c ≤ 'Z' then true else false

/-- ASCII `[a-z]`. -/
def isLowerAscii (c : Char) : Bool := if 'a' ≤ c ∧ c ≤ 'z' then true else false

/-- `QID_RE = re.compile(r'^([A-Z]\d+[a-z]?)\.\s*(.+)', re.DOTALL)` applied
with `re.match`; returns the question identifier and `m.group(2).strip()`
(the source always strips the remainder it uses). -/
def qidMatch (s : String) : Option (String × String) :=
  match s.data with
  | [] => none
  | c :: rest =>
    if isUpperAscii c then
      let ds := rest.takeWhile Char.isDigit
      if ds.isEmpty then none
      else
        let r1 := rest.drop ds.length
        let (letterPart, r2) : List Char × List Char :=
          match r1 with
          | c2 :: r2' => if isLowerAscii c2 then ([c2], r2') else ([], r1)
          | [] => ([], [])
        match r2 with
        | '.' :: t =>
          if t.isEmpty then none
          else some (String.mk (c :: (ds ++ letterPart)), pyStrip (String.mk t))
        | _ => none
    else none

/-- The character class `[A-ZŹŻŚĆŁÓĄĘUP]` opening a sub-item
(`U` and `P` are already covered by `A-Z`). -/
def isSubUpper (c : Char) : Bool :=
  isUpperAscii c || c == 'Ź' || c == 'Ż' || c == 'Ś' || c == 'Ć' || c == 'Ł' ||
    c == 'Ó' || c == 'Ą' || c == 'Ę'

/-- The sentence punctuation `[.?!:;]` ending a parent text. -/
def isPunctSplit (c : Char) : Bool :=
  c == '.' || c == '?' || c == '!' || c == ':' || c == ';'

/-- The lazy split `re.match(r'^(.+?[.?!:;])\s+([A-ZŹŻŚĆŁÓĄĘUP].{5,})$', rest,
re.DOTALL)`: the first (leftmost) punctuation position (preceded by at least
one character) followed by a whitespace run and a ≥6-character sub-item
starting with an upper-class letter; returns (group 1, group 2). -/
def findSubSplit (acc : List Char) : List Char → Option (List Char × List Char)
  | [] => none
  | c :: t =>
    if isPunctSplit c ∧ ¬ acc.isEmpty then
      let k := (t.takeWhile isPySpace).length
      let after := t.drop k
      match after with
      | a :: t2 =>
        if 1 ≤ k ∧ isSubUpper a = true ∧ 5 ≤ t2.length then
          some (acc.reverse ++ [c], a :: t2)
        else findSubSplit (c :: acc) t
      | [] => findSubSplit (c :: acc) t
    else findSubSplit (c :: acc) t

/-- `_split_qid_header(header)` returning `(qid, parent_text, first_sub)`;
`(none, none, some header)` is Python's `(None, None, header)`.
The 85%-length acceptance test `len(sub) < len(rest) * 0.85` is modelled
exactly as the rational 17/20 (the float artifact at exact multiples of 20
is out of scope). -/
def split_qid_header (header : String) : Option String × Option String × Option String :=
  match qidMatch header with
  | none => (none, none, some header)
  | some (qid, rest) =>
    match findSubSplit [] rest.data with
    | some (g1, g2) =>
      let sub := pyStrip (String.mk g2)
      if 20 * sub.length < 17 * rest.length then
        (some qid, some (qid ++ ". " ++ pyStrip (String.mk g1)), some sub)
      else (some qid, some (qid ++ ". " ++ rest), none)
    | none => (some qid, some (qid ++ ". " ++ rest), none)

/-! ## Grouping automaton (`auto_detect_questions`) -/

def META_KEYWORDS : List String :=
  ["numer wywiadu", "aranżacja", "imię", "nazwisko", "telefon",
   "kod pocztowy", "miejscowość", "waga", "[ogółem]", "wyniki dla",
   "makroregion", "segmentacja", "segment"]

def EXCLUDE_KEYWORDS : List String := ["inna, jaka", "inne (jakie"]

def DEMOGRAPHIC_QIDS : List String :=
  ["M1", "M1a", "M1b", "M2a", "M3", "M4", "M5", "M6", "M7", "M8", "M9", "M10", "M11"]

def EXCLUDE_QIDS : List String := ["M2"]

/-- `_is_meta`. -/
def is_meta (colName : String) : Bool :=
  META_KEYWORDS.any fun kw => strContains (pyLower colName) kw

/-- `_should_exclude`. -/
def should_exclude (colName : String) : Bool :=
  EXCLUDE_KEYWORDS.any fun kw => strContains (pyLower colName) kw

/-- `_infer_chart_type`. -/
def infer_chart_type (qtype : String) (nCategories : ℕ) : String :=
  if qtype = "numeric_scale" ∨ qtype = "likert" then "horizontal_bar_means"
  else if qtype = "multiple_choice" then "multiple_choice_bar"
  else if qtype = "single_choice" then
    if nCategories ≤ 3 then "pie" else "frequency_bar"
  else "frequency_bar"

/-- A dataframe column: raw header string and cells. -/
structure Column where
  header : String
  cells : List (Option String)
deriving DecidableEq

/-- A dataframe: the ordered columns (row count is the common cell-list length). -/
abbrev DataFrame := List Column

/-- `col_str.strip().lower()`, the normalized header used for duplicate
detection. -/
def normHeader (h : String) : String := pyLower (pyStrip h)

/-- The `QuestionDef` dataclass (the fields set by the classifier;
`parent_question`, `weight_column` and `notes` keep their `""`/`None`
defaults everywhere in scope and are omitted).  `scale_labels` is key-sorted
and `special_values` sorted duplicate-free (dict/set content equality). -/
structure QuestionDef where
  id : String
  label : String
  columns : List ℕ
  column_labels : List String
  question_type : String
  chart_type : String
  scale_min : Option ℤ := none
  scale_max : Option ℤ := none
  scale_labels : List (ℕ × String) := []
  special_values : List ℕ := []
  is_demographic : Bool := false
deriving DecidableEq

/-- Python truthiness fallback `s if s else dflt` for an optional string. -/
def pyOrStr (o : Option String) (dflt : String) : String :=
  match o with
  | some s => if s = "" then dflt else s
  | none => dflt

/-- `ct.get('scale_min')`. -/
def ctScaleMin : ColType → Option PyFloat
  | .likert mn _ _ _ => some (.num mn)
  | .numericScale mn _ => some mn
  | _ => none

/-- `ct.get('scale_max')`. -/
def ctScaleMax : ColType → Option PyFloat
  | .likert _ mx _ _ => some (.num mx)
  | .numericScale _ mx => some mx
  | _ => none

/-- `ct.get('scale_labels', {})`. -/
def ctScaleLabels : ColType → List (ℕ × String)
  | .likert _ _ ls _ => ls
  | _ => []

/-- `ct.get('special_numeric', set())`. -/
def ctSpecial : ColType → List ℕ
  | .likert _ _ _ sp => sp
  | _ => []

/-- `scale_min = smin if scale_min is None else min(scale_min, smin)`. -/
def mergeMin (acc x : Option PyFloat) : Option PyFloat :=
  match x with
  | none => acc
  | some v => match acc with
    | none => some v
    | some a => some (pyMin2 a v)

/-- The max analogue. -/
def mergeMax (acc x : Option PyFloat) : Option PyFloat :=
  match x with
  | none => acc
  | some v => match acc with
    | none => some v
    | some a => some (pyMax2 a v)

/-- `dict.update`: each key of `e` overrides/extends `d`. -/
def dictUpdate (d e : List (ℕ × String)) : List (ℕ × String) :=
  e.foldl (fun acc p => assocUpdate acc p.1 p.2) d

/-- Python `int()` on a float: truncation toward zero; raises on the
IEEE specials. -/
def pyInt : PyFloat → Except String ℤ
  | .num q => .ok (if 0 ≤ q then ⌊q⌋ else ⌈q⌉)
  | .nan => .error "ValueError: cannot convert float NaN to integer"
  | .inf => .error "OverflowError: cannot convert float infinity to integer"
  | .ninf => .error "OverflowError: cannot convert float infinity to integer"

/-- Key-sorted canonical form of a Python dict (content equality). -/
def canonAssoc (d : List (ℕ × String)) : List (ℕ × String) :=
  (List.insertionSort (· ≤ ·) (d.map Prod.fst).dedup).filterMap
    fun n => (d.lookup n).map fun l => (n, l)

/-- Sorted canonical form of a Python int set (content equality). -/
def canonSet (s : List ℕ) : List ℕ := List.insertionSort (· ≤ ·) s.dedup

/-- Result of the sub-item gathering inner `while` loop of
`auto_detect_questions`. -/
structure GatherRes where
  cols : List ℕ
  labels : List String
  processed : List ℕ
  seen : List String
  jFinal : ℕ

/-- The inner `while j < n_cols` loop of `auto_detect_questions`: extend the
open group at columns `j, j+1, …` until a QID column or a signature of a
different non-empty type. -/
def gatherLoop (headers : List String) (ctypes : List ColType) (tag : String)
    (j : ℕ) (processed : List ℕ) (seen : List String)
    (cols : List ℕ) (labels : List String) : GatherRes :=
  if j < headers.length then
    if (split_qid_header (headers.getD j "")).1.isSome then
      ⟨cols, labels, processed, seen, j⟩
    else if is_meta (headers.getD j "") || should_exclude (headers.getD j "") then
      gatherLoop headers ctypes tag (j+1) (j :: processed) seen cols labels
    else if normHeader (headers.getD j "") ∈ seen then
      gatherLoop headers ctypes tag (j+1) (j :: processed) seen cols labels
    else if ctag (ctypes.getD j .empty) ≠ tag ∧ ctag (ctypes.getD j .empty) ≠ "empty" then
      ⟨cols, labels, processed, seen, j⟩
    else if ctag (ctypes.getD j .empty) = "empty" then
      gatherLoop headers ctypes tag (j+1) (j :: processed) seen cols labels
    else
      gatherLoop headers ctypes tag (j+1) processed
        (normHeader (headers.getD j "") :: seen)
        (cols ++ [j]) (labels ++ [headers.getD j ""])
  else ⟨cols, labels, processed, seen, j⟩
termination_by headers.length - j

theorem gatherLoop_jFinal_ge (headers : List String) (ctypes : List ColType)
    (tag : String) (j : ℕ) (processed : List ℕ) (seen : List String)
    (cols : List ℕ) (labels : List String) :
    j ≤ (gatherLoop headers ctypes tag j processed seen cols labels).jFinal := by
  generalize hfuel : headers.length - j = fuel
  induction fuel generalizing j processed seen cols labels with
  | zero =>
    rw [gatherLoop]
    have hj : ¬ j < headers.length := by omega
    simp [hj]
  | succ n ih =>
    rw [gatherLoop]
    by_cases hj : j < headers.length
    · simp only [if_pos hj]
      have hstep : headers.length - (j + 1) = n := by omega
      split
      · exact Nat.le_refl j
      · split
        · exact Nat.le_trans (Nat.le_succ j) (ih (j+1) _ _ _ _ hstep)
        · split
          · exact Nat.le_trans (Nat.le_succ j) (ih (j+1) _ _ _ _ hstep)
          · split
            · exact Nat.le_refl j
            · split
              · exact Nat.le_trans (Nat.le_succ j) (ih (j+1) _ _ _ _ hstep)
              · exact Nat.le_trans (Nat.le_succ j) (ih (j+1) _ _ _ _ hstep)
    · simp [hj]

/-- Exception propagation: run the continuation unless an exception is
already in flight (`Except.bind`, spelled out). -/
def okThen {α β : Type} (x : Except String α) (f : α → Except String β) :
    Except String β :=
  match x with
  | .error e => .error e
  | .ok a => f a

/-- `int(bound) if bound is not None else None`: the conversion raises on
`nan`/`±inf`. -/
def boundInt (o : Option PyFloat) : Except String (Option ℤ) :=
  match o with
  | none => .ok none
  | some v => (pyInt v).map some

/-- The outer `while i < n_cols` loop of `auto_detect_questions`.
`Except.error` models the `int()` conversion raising on an IEEE-special
merged scale bound. -/
def detectLoop (headers : List String) (ctypes : List ColType) (i : ℕ)
    (processed : List ℕ) (seen : List String) : Except String (List QuestionDef) :=
  if hi : i < headers.length then
    if i ∈ processed then detectLoop headers ctypes (i+1) processed seen
    else
      let colStr := headers.getD i ""
      let colNorm := normHeader colStr
      if ctag (ctypes.getD i .empty) = "empty" ∨ is_meta colStr = true ∨
          should_exclude colStr = true ∨ colNorm ∈ seen then
        detectLoop headers ctypes (i+1) (i :: processed) seen
      else
        let seen1 := colNorm :: seen
        let qps := split_qid_header colStr
        if (qps.1.getD "") ∈ EXCLUDE_QIDS then
          detectLoop headers ctypes (i+1) (i :: processed) seen1
        else
          let isDemo := match qps.1 with
            | some q => decide (q ∈ DEMOGRAPHIC_QIDS)
            | none => false
          let ct := ctag (ctypes.getD i .empty)
          if ct = "likert" ∨ ct = "numeric_scale" ∨ ct = "multiple_choice" then
            let g := gatherLoop headers ctypes ct (i+1) processed seen1 [i]
                [pyOrStr qps.2.2 colStr]
            let mcts := g.cols.map fun c => ctypes.getD c .empty
            okThen (boundInt (mcts.foldl (fun a c => mergeMin a (ctScaleMin c)) none))
              fun sminI =>
            okThen (boundInt (mcts.foldl (fun a c => mergeMax a (ctScaleMax c)) none))
              fun smaxI =>
            okThen (detectLoop headers ctypes g.jFinal (g.cols ++ g.processed) g.seen)
              fun rest =>
                  .ok (⟨(qps.1).getD ("group_" ++ toString i), pyOrStr qps.2.1 colStr,
                        g.cols, g.labels, ct, infer_chart_type ct 0, sminI, smaxI,
                        canonAssoc (mcts.foldl (fun a c => dictUpdate a (ctScaleLabels c)) []),
                        canonSet (mcts.foldl (fun a c => a ++ ctSpecial c) []),
                        isDemo⟩ :: rest)
          else if ct = "single_choice" then
            let nCat := match ctypes.getD i .empty with
              | .singleChoice _ n => n
              | _ => 0
            okThen (detectLoop headers ctypes (i+1) (i :: processed) seen1) fun rest =>
              .ok (⟨(qps.1).getD ("choice_" ++ toString i), pyOrStr qps.2.1 colStr,
                    [i], [colStr], "single_choice", infer_chart_type "single_choice" nCat,
                    none, none, [], [], isDemo⟩ :: rest)
          else detectLoop headers ctypes (i+1) (i :: processed) seen1
  else .ok []
termination_by headers.length - i
decreasing_by
  all_goals simp_wf
  all_goals first
    | omega
    | · have := gatherLoop_jFinal_ge headers ctypes
          (ctag (ctypes[i]?.getD ColType.empty)) (i+1) processed
          (normHeader (headers[i]?.getD "") :: seen) [i]
          [pyOrStr (split_qid_header (headers[i]?.getD "")).2.2 (headers[i]?.getD "")]
        omega

/-- `auto_detect_questions(df)`. -/
def auto_detect_questions (df : DataFrame) : Except String (List QuestionDef) :=
  detectLoop (df.map (·.header)) (df.map fun c => detect_column_type c.cells) 0 [] []

/-! ## Weighted statistics engine (`statistics.py`) -/

/-- Result of a statistics routine: the undefined-result marker `np.nan`,
a raised exception (`err`), or a finite value. -/
inductive StatValue where
  | nan
  | err
  | val (q : ℚ)
deriving DecidableEq

/-- `values.dropna()` paired positionally with
`weights.loc[valid.index].fillna(1.0)`. -/
def validPairs (values : List (Option ℚ)) (weights : List (Option ℚ)) : List (ℚ × ℚ) :=
  (values.zip weights).filterMap fun vw => vw.1.map fun x => (x, vw.2.getD 1)

/-- `weighted_mean(values, weights)`.  `np.average` raises
`ZeroDivisionError` when the weights sum to zero — that is `err`, not `nan`. -/
def weighted_mean (values : List (Option ℚ)) (weights : Option (List (Option ℚ))) :
    StatValue :=
  if (values.filterMap id).length = 0 then .nan
  else
    match weights with
    | none => .val ((values.filterMap id).sum / ((values.filterMap id).length : ℚ))
    | some ws =>
      let pairs := validPairs values ws
      let wsum := (pairs.map Prod.snd).sum
      if wsum = 0 then .err
      else .val ((pairs.map fun p => p.1 * p.2).sum / wsum)

/-- `pandas.Series.median()`: midpoint of the two middle order statistics. -/
def pandasMedian (l : List ℚ) : ℚ :=
  let s := List.insertionSort (· ≤ ·) l
  let n := s.length
  if n % 2 = 1 then s.getD (n / 2) 0
  else (s.getD (n / 2 - 1) 0 + s.getD (n / 2) 0) / 2

/-- The scan `sorted_vals[cumsum >= cutoff][0]`: first value whose running
weight sum reaches the cutoff (`none` models the `IndexError` when no
cumulative weight ever reaches it, possible only with negative weights). -/
def cumFirst (cutoff : ℚ) (acc : ℚ) : List (ℚ × ℚ) → Option ℚ
  | [] => none
  | vw :: t => if cutoff ≤ acc + vw.2 then some vw.1 else cumFirst cutoff (acc + vw.2) t

/-- `weighted_median(values, weights)`. -/
def weighted_median (values : List (Option ℚ)) (weights : Option (List (Option ℚ))) :
    StatValue :=
  if (values.filterMap id).length = 0 then .nan
  else
    match weights with
    | none => .val (pandasMedian (values.filterMap id))
    | some ws =>
      let pairs := List.insertionSort (fun p q : ℚ × ℚ => p.1 ≤ q.1) (validPairs values ws)
      let total := (pairs.map Prod.snd).sum
      match cumFirst (total / 2) 0 pairs with
      | some v => .val v
      | none => .err

/-- The squared value of `weighted_std(values, weights)` (the source returns
its real square root; `Real.sqrt` is injective on nonnegatives, so equalities
and inequalities of standard deviations are decided on these radicands).
Unweighted: the pandas sample variance (`ddof = 1`); weighted: the
`np.average`-based population variance, raising on a zero weight total. -/
def weighted_std_sq (values : List (Option ℚ)) (weights : Option (List (Option ℚ))) :
    StatValue :=
  let valid := values.filterMap id
  if valid.length ≤ 1 then .nan
  else
    match weights with
    | none =>
      let m := valid.sum / (valid.length : ℚ)
      .val ((valid.map fun x => (x - m) ^ 2).sum / ((valid.length : ℚ) - 1))
    | some ws =>
      let pairs := validPairs values ws
      let wsum := (pairs.map Prod.snd).sum
      if wsum = 0 then .err
      else
        let avg := (pairs.map fun p => p.1 * p.2).sum / wsum
        .val ((pairs.map fun p => (p.1 - avg) ^ 2 * p.2).sum / wsum)

/-! ### `frequency_table` -/

/-- One row of the frequency table (`Kategoria`, `N`, `%`). -/
structure FreqRow where
  kategoria : String
  n : ℚ
  pct : ℚ
deriving DecidableEq

/-- The valid entries: non-missing, non-blank after stripping (the category
strings themselves are kept unstripped). -/
def ftValid (series : List (Option String)) : List String :=
  (series.filterMap id).filter fun s => pyStrip s != ""

/-- Valid entries paired with their weights (`fillna(1.0)`). -/
def ftValidW (series : List (Option String)) (ws : List (Option ℚ)) :
    List (String × ℚ) :=
  ((series.zip ws).filterMap fun p => p.1.map fun s => (s, p.2.getD 1)).filter
    fun p => pyStrip p.1 != ""

/-- The category order of the table: first-seen for the unweighted
`value_counts(sort=False)`, sorted keys for the weighted `groupby`. -/
def ftCats (series : List (Option String)) (weights : Option (List (Option ℚ))) :
    List String :=
  match weights with
  | none => firstSeen (ftValid series)
  | some ws => List.insertionSort strLe (firstSeen ((ftValidW series ws).map Prod.fst))

/-- The weighted (or plain) count of one category. -/
def catWeight (series : List (Option String)) (weights : Option (List (Option ℚ)))
    (c : String) : ℚ :=
  match weights with
  | none => (((ftValid series).filter fun s => s == c).length : ℚ)
  | some ws => (((ftValidW series ws).filter fun p => p.1 == c).map Prod.snd).sum

/-- The total weighted count over all valid entries. -/
def ftTotal (series : List (Option String)) (weights : Option (List (Option ℚ))) : ℚ :=
  match weights with
  | none => ((ftValid series).length : ℚ)
  | some ws => ((ftValidW series ws).map Prod.snd).sum

/-- `frequency_table(series, weights, sort_by_count)`. -/
def frequency_table (series : List (Option String)) (weights : Option (List (Option ℚ)))
    (sortByCount : Bool) : List FreqRow :=
  let freq := (ftCats series weights).map fun c => (c, catWeight series weights c)
  let freq2 :=
    if sortByCount then List.insertionSort (fun a b : String × ℚ => b.2 ≤ a.2) freq
    else freq
  freq2.map fun p =>
    ⟨p.1, p.2,
     if 0 < ftTotal series weights then roundDec 1 (p.2 / ftTotal series weights * 100)
     else 0⟩

/-! ### `get_numeric_data` and `multiple_choice_table` -/

/-- A cell of the parsed numeric dataframe produced by `get_numeric_data`:
a float (with the IEEE specials; a parse returning `None` is stored by pandas
as `nan`), or the untouched string of a passthrough column. -/
inductive Cell where
  | num (q : ℚ)
  | nan
  | inf
  | ninf
  | str (s : String)
deriving DecidableEq

/-- Embed a parsed float into a cell. -/
def pfCell : PyFloat → Cell
  | .num q => .num q
  | .nan => .nan
  | .inf => .inf
  | .ninf => .ninf

/-- `str(x)` of a raw cell: a missing value prints as `'nan'`. -/
def strOfCell : Option String → String
  | none => "nan"
  | some s => s

/-- `parse_likert_value(val)` (`None` results are pandas `nan` cells). -/
def parse_likert_value (val : Option String) : Cell :=
  match val with
  | none => .nan
  | some raw =>
    let s := pyStrip raw
    if s = "" then .nan
    else
      match likertMatch s with
      | some nl => .num nl.1
      | none =>
        if pyLower s ∈ SPECIAL_VALUES then .nan
        else
          match pyFloat s with
          | some f => pfCell f
          | none => .nan

/-- `parse_numeric_value(val)`. -/
def parse_numeric_value (val : Option String) : Cell :=
  match val with
  | none => .nan
  | some raw =>
    let s := pyStrip raw
    if pyLower s ∈ SPECIAL_VALUES then .nan
    else
      match pyFloat s with
      | some f => pfCell f
      | none => .nan

/-- The multiple-choice cell map `1 if str(x).strip() == 'MENTIONED' else 0`. -/
def mentionParse (val : Option String) : Cell :=
  if pyStrip (strOfCell val) = "MENTIONED" then .num 1 else .num 0

/-- The sentinel-code erasure
`None if x is not None and x in question.special_values else x`
(applied only when the special set is non-empty). -/
def applySpecial (specials : List ℕ) (c : Cell) : Cell :=
  if specials.isEmpty then c
  else
    match c with
    | .num q => if specials.any fun n => (n : ℚ) == q then .nan else c
    | _ => c

/-- The per-cell parser `get_numeric_data` applies, selected by the group
type tag (the `else` branch passes the raw series through). -/
def cellParser (q : QuestionDef) : Option String → Cell :=
  if q.question_type = "likert" then
    fun c => applySpecial q.special_values (parse_likert_value c)
  else if q.question_type = "numeric_scale" then parse_numeric_value
  else if q.question_type = "multiple_choice" then mentionParse
  else fun c => match c with | none => Cell.nan | some s => Cell.str s

/-- `get_numeric_data(df, question)` without a weight column (none of the
claims concerns the `_weight` attachment).  Member columns are addressed by
position; the caller guarantees the indices are in range (pandas would raise
otherwise). -/
def get_numeric_data (df : DataFrame) (q : QuestionDef) : List (String × List Cell) :=
  (q.columns.zip q.column_labels).map fun p =>
    (p.2, ((df.getD p.1 ⟨"", []⟩).cells).map (cellParser q))

/-- One row of the multiple-choice table (`Opcja`, `N`, `% wskazań`). -/
structure MCRow where
  opcja : String
  n : ℚ
  pct : ℚ
deriving DecidableEq

/-- `series == 1` on a parsed cell (false for `nan` and strings). -/
def mcIsOne (c : Cell) : Bool := c == .num 1

/-- `n_total = len(data)`: the row count of the group dataframe (the length
of its column lists, all equal). -/
def mcNTotal (data : List (String × List Cell)) : ℚ :=
  match data with
  | [] => 0
  | p :: _ => (p.2.length : ℚ)

/-- `multiple_choice_table(data, weights)`: the group dataframe is the
labelled column list produced by `get_numeric_data`. -/
def multiple_choice_table (data : List (String × List Cell))
    (weights : Option (List ℚ)) : List MCRow :=
  let nTotal : ℚ := mcNTotal data
  let rows := (data.filter fun p => !(p.1.startsWith "_")).map fun p =>
    let nM : ℚ := ((p.2.filter mcIsOne).length : ℚ)
    match weights with
    | some w =>
      let mentionedW := (((p.2.zip w).filter fun cw => mcIsOne cw.1).map Prod.snd).sum
      ⟨p.1, nM, roundDec 1 (if 0 < w.sum then mentionedW / w.sum * 100 else 0)⟩
    | none =>
      ⟨p.1, nM, roundDec 1 (if 0 < nTotal then nM / nTotal * 100 else 0)⟩
  List.insertionSort (fun a b : MCRow => b.pct ≤ a.pct) rows

/-! ### `cross_tab_frequencies` -/

/-- The valid (data, group, weight) observations (weight 1 when unweighted;
both columns `astype(str)` are already strings). -/
def ctPairs (dataCol groupCol : List (Option String)) (weights : Option (List ℚ)) :
    List (String × String × ℚ) :=
  match weights with
  | none =>
    (dataCol.zip groupCol).filterMap fun p =>
      match p with
      | (some d, some g) => some (d, g, 1)
      | _ => none
  | some w =>
    ((dataCol.zip groupCol).zip w).filterMap fun p =>
      match p with
      | ((some d, some g), wt) => some (d, g, wt)
      | _ => none

/-- The row categories of the pivot (crosstab sorts its index). -/
def ctRowCats (dataCol groupCol : List (Option String)) (weights : Option (List ℚ)) :
    List String :=
  List.insertionSort strLe (firstSeen ((ctPairs dataCol groupCol weights).map fun p => p.1))

/-- The column categories of the pivot. -/
def ctColCats (dataCol groupCol : List (Option String)) (weights : Option (List ℚ)) :
    List String :=
  List.insertionSort strLe (firstSeen ((ctPairs dataCol groupCol weights).map fun p => p.2.1))

/-- A raw crosstab cell: an unweighted count (0 for an unobserved pair), or
the weight sum with `none` (`NaN`) for an unobserved pair, as
`pd.crosstab(..., values=w, aggfunc='sum')` produces. -/
def ctRawCell (dataCol groupCol : List (Option String)) (weights : Option (List ℚ))
    (r c : String) : Option ℚ :=
  let obs := (ctPairs dataCol groupCol weights).filter fun p => p.1 == r && p.2.1 == c
  match weights with
  | none => some ((obs.length : ℚ))
  | some _ => if obs.isEmpty then none else some ((obs.map fun p => p.2.2).sum)

/-- `ct.sum(axis=0)` for one column (pandas sums skip `NaN`). -/
def ctColSum (dataCol groupCol : List (Option String)) (weights : Option (List ℚ))
    (c : String) : ℚ :=
  ((ctRowCats dataCol groupCol weights).map
    fun r => (ctRawCell dataCol groupCol weights r c).getD 0).sum

/-- The percentage pivot of `cross_tab_frequencies`: rows, columns and the
row-major cell matrix after column normalization, rounding to 1 decimal and
`fillna(0)` (a zero column sum is replaced by `NaN` first, so such a column
comes out all zero instead of dividing by zero). -/
structure CrossTab where
  rowCats : List String
  colCats : List String
  cells : List (List ℚ)
deriving DecidableEq

/-- `cross_tab_frequencies(data_col, group_col, weights)`. -/
def cross_tab_frequencies (dataCol groupCol : List (Option String))
    (weights : Option (List ℚ)) : CrossTab :=
  let rows := ctRowCats dataCol groupCol weights
  let cols := ctColCats dataCol groupCol weights
  ⟨rows, cols,
   rows.map fun r => cols.map fun c =>
     if ctColSum dataCol groupCol weights c = 0 then 0
     else
       match ctRawCell dataCol groupCol weights r c with
       | none => 0
       | some v => roundDec 1 (v / ctColSum dataCol groupCol weights c * 100)⟩

/-! ### `test_group_differences` -/

/-- A significance-test result (`test`, `statistic`, `p_value`). -/
structure TestResult where
  test : String
  statistic : StatValue
  p_value : StatValue
deriving DecidableEq

/-- The external `scipy.stats` tests consumed by `test_group_differences`:
each maps the per-group value lists to `(statistic, p_value)`.  `kruskal`
may raise (e.g. on all-identical values), which the source catches; the
claims hold for every implementation. -/
structure ScipyStats where
  mannwhitneyu : List ℚ → List ℚ → ℚ × ℚ
  ttest_ind : List ℚ → List ℚ → ℚ × ℚ
  kruskal : List (List ℚ) → Except Unit (ℚ × ℚ)

/-- The valid paired observations (the data column is taken after
`pd.to_numeric(..., errors='coerce')`, so a cell is `none` when missing or
unparseable). -/
def tgdPairs (dataCol : List (Option ℚ)) (groupCol : List (Option String)) :
    List (ℚ × String) :=
  (dataCol.zip groupCol).filterMap fun p =>
    match p with
    | (some x, some gr) => some (x, gr)
    | _ => none

/-- `groups.unique()`: the distinct group values in first-seen order. -/
def tgdGroups (dataCol : List (Option ℚ)) (groupCol : List (Option String)) :
    List String :=
  firstSeen ((tgdPairs dataCol groupCol).map Prod.snd)

/-- `group_data = [numeric[groups == g].values for g in unique_groups]`. -/
def tgdGroupData (dataCol : List (Option ℚ)) (groupCol : List (Option String)) :
    List (List ℚ) :=
  (tgdGroups dataCol groupCol).map fun gr =>
    ((tgdPairs dataCol groupCol).filter fun p => p.2 == gr).map Prod.fst

/-- `test_group_differences(data_col, group_col, test_type)`. -/
def test_group_differences (S : ScipyStats) (dataCol : List (Option ℚ))
    (groupCol : List (Option String)) (testType : String) : TestResult :=
  let paired := tgdPairs dataCol groupCol
  if paired.length < 5 then ⟨"insufficient_data", .nan, .nan⟩
  else
    let uniqueGroups := tgdGroups dataCol groupCol
    if uniqueGroups.length < 2 then ⟨"single_group", .nan, .nan⟩
    else
      let groupData := tgdGroupData dataCol groupCol
      let kruskalRes : TestResult :=
        match S.kruskal groupData with
        | .ok sp => ⟨"Kruskal-Wallis", .val (roundDec 2 sp.1), .val (roundDec 4 sp.2)⟩
        | .error _ => ⟨"error", .nan, .nan⟩
      if uniqueGroups.length = 2 then
        if testType = "auto" then
          let sp := S.mannwhitneyu (groupData.getD 0 []) (groupData.getD 1 [])
          ⟨"Mann-Whitney U", .val (roundDec 2 sp.1), .val (roundDec 4 sp.2)⟩
        else if testType = "ttest" then
          let sp := S.ttest_ind (groupData.getD 0 []) (groupData.getD 1 [])
          ⟨"t-test", .val (roundDec 2 sp.1), .val (roundDec 4 sp.2)⟩
        else kruskalRes
      else kruskalRes

/-! ## `load_config` -/

/-- A serialized question entry (`qd`): required keys plus the optional ones
read with `.get`. -/
structure RawQuestion where
  id : String
  label : String
  columns : List ℕ
  column_labels : Option (List String)
  question_type : String
  chart_type : String
  scale_min : Option ℤ
  scale_max : Option ℤ
  scale_labels : Option (List (ℕ × String))
  special_values : Option (List ℕ)
  is_demographic : Option Bool
deriving DecidableEq

/-- The parsed YAML config.  `questions = none` models a missing key;
`some none` a `questions:` key holding YAML `null`; `some (some qs)` a list. -/
structure RawConfig where
  questions : Option (Option (List RawQuestion))
  categorical_questions : Option (List String)
deriving DecidableEq

/-- The two failure modes of `load_config`: the explicit schema
`ValueError`, and the `TypeError` from iterating a `None` questions value. -/
inductive LoadError where
  | valueError
  | typeError
deriving DecidableEq

/-- Build a `QuestionDef` from a serialized entry (defaults as in the source). -/
def rawToQuestionDef (qd : RawQuestion) : QuestionDef :=
  ⟨qd.id, qd.label, qd.columns, qd.column_labels.getD [], qd.question_type,
   qd.chart_type, qd.scale_min, qd.scale_max, canonAssoc (qd.scale_labels.getD []),
   canonSet (qd.special_values.getD []), qd.is_demographic.getD false⟩

/-- `load_config(config_path)` on the parsed YAML value (`none` is a falsy
config: empty file or empty mapping). -/
def load_config (cfg : Option RawConfig) :
    Except LoadError (List QuestionDef × Option (List String)) :=
  match cfg with
  | none => .error .valueError
  | some c =>
    match c.questions with
    | none => .error .valueError
    | some none => .error .typeError
    | some (some qs) =>
      .ok (qs.map rawToQuestionDef,
           c.categorical_questions.map fun l => l.map pyStrip)

/-! ## General lemmas -/

theorem roundHalfEven_abs_le (q : ℚ) : |(roundHalfEven q : ℚ) - q| ≤ 1/2 := by
  have h0 : (0 : ℚ) ≤ q - ⌊q⌋ := by
    have := Int.floor_le q
    linarith
  have h1 : q - ⌊q⌋ < 1 := by
    have := Int.lt_floor_add_one q
    linarith
  simp only [roundHalfEven]
  split_ifs
  · rw [abs_sub_comm, abs_of_nonneg h0]
    linarith
  · rw [abs_of_nonneg (by push_cast; linarith)]
    push_cast
    linarith
  · rw [abs_sub_comm, abs_of_nonneg h0]
    linarith
  · rw [abs_of_nonneg (by push_cast; linarith)]
    push_cast
    linarith

theorem roundDec_one_abs_le (q : ℚ) : |roundDec 1 q - q| ≤ 1/20 := by
  unfold roundDec
  have h := roundHalfEven_abs_le (q * (10 : ℚ) ^ 1)
  have h10 : ((10 : ℚ) ^ 1) = 10 := by norm_num
  rw [h10]
  have : (roundHalfEven (q * 10) : ℚ) / 10 - q = ((roundHalfEven (q * 10) : ℚ) - q * 10) / 10 := by
    ring
  rw [this, abs_div, abs_of_pos (by norm_num : (0:ℚ) < 10)]
  rw [h10] at h
  linarith [abs_nonneg ((roundHalfEven (q * 10) : ℚ) - q * 10)]

theorem sum_map_abs_diff_le {α : Type} (l : List α) (f g : α → ℚ) (b : ℚ)
    (h : ∀ x ∈ l, |f x - g x| ≤ b) :
    |(l.map f).sum - (l.map g).sum| ≤ l.length * b := by
  induction l with
  | nil => simp
  | cons a t ih =>
    have ha := h a (List.mem_cons_self a t)
    have ht := ih fun x hx => h x (List.mem_cons_of_mem a hx)
    simp only [List.map_cons, List.sum_cons, List.length_cons]
    have : f a + (t.map f).sum - (g a + (t.map g).sum)
        = (f a - g a) + ((t.map f).sum - (t.map g).sum) := by ring
    rw [this]
    calc |(f a - g a) + ((t.map f).sum - (t.map g).sum)|
        ≤ |f a - g a| + |(t.map f).sum - (t.map g).sum| := abs_add _ _
      _ ≤ b + t.length * b := by linarith
      _ = (t.length + 1) * b := by ring
      _ = ((t.length + 1 : ℕ) : ℚ) * b := by push_cast; ring

/-! ### The Python string order is a total preorder -/

theorem charsLe_total (a b : List Char) : charsLe a b = true ∨ charsLe b a = true := by
  induction a generalizing b with
  | nil => left; rfl
  | cons x xs ih =>
    cases b with
    | nil => right; rfl
    | cons y ys =>
      by_cases hxy : x.toNat < y.toNat
      · left; simp [charsLe, hxy]
      · by_cases hyx : y.toNat < x.toNat
        · right; simp [charsLe, hyx]
        · rcases ih ys with h | h
          · left; simp [charsLe, hxy, hyx, h]
          · right; simp [charsLe, hxy, hyx, h]

theorem charsLe_trans {a b c : List Char} (hab : charsLe a b = true)
    (hbc : charsLe b c = true) : charsLe a c = true := by
  induction a generalizing b c with
  | nil => rfl
  | cons x xs ih =>
    cases b with
    | nil => simp [charsLe] at hab
    | cons y ys =>
      cases c with
      | nil => simp [charsLe] at hbc
      | cons z zs =>
        simp only [charsLe] at hab hbc ⊢
        by_cases hxy : x.toNat < y.toNat
        · by_cases hyz : y.toNat < z.toNat
          · simp [show x.toNat < z.toNat by omega]
          · by_cases hzy : z.toNat < y.toNat
            · simp [charsLe, hyz, hzy] at hbc
            · simp [show x.toNat < z.toNat by omega]
        · by_cases hyx : y.toNat < x.toNat
          · simp [hxy, hyx] at hab
          · by_cases hyz : y.toNat < z.toNat
            · simp [show x.toNat < z.toNat by omega]
            · by_cases hzy : z.toNat < y.toNat
              · simp [hyz, hzy] at hbc
              · have hxz : ¬ x.toNat < z.toNat := by omega
                have hzx : ¬ z.toNat < x.toNat := by omega
                simp only [hxy, hyx, if_false] at hab
                simp only [hyz, hzy, if_false] at hbc
                simp [hxz, hzx, ih hab hbc]

theorem charsLe_antisymm {a b : List Char} (hab : charsLe a b = true)
    (hba : charsLe b a = true) : a = b := by
  induction a generalizing b with
  | nil =>
    cases b with
    | nil => rfl
    | cons y ys => simp [charsLe] at hba
  | cons x xs ih =>
    cases b with
    | nil => simp [charsLe] at hab
    | cons y ys =>
      simp only [charsLe] at hab hba
      by_cases hxy : x.toNat < y.toNat
      · simp [show ¬ y.toNat < x.toNat by omega, hxy] at hba
      · by_cases hyx : y.toNat < x.toNat
        · simp [hxy, hyx] at hab
        · have hx : x = y := by
            apply Char.eq_of_val_eq
            apply UInt32.eq_of_val_eq
            apply Fin.eq_of_val_eq
            change x.toNat = y.toNat
            omega
          simp only [hxy, hyx, if_false] at hab hba
          rw [hx, ih hab hba]

instance : IsTotal String strLe := ⟨fun a b => charsLe_total a.data b.data⟩

instance : IsTrans String strLe := ⟨fun _ _ _ hab hbc => charsLe_trans hab hbc⟩

instance : IsAntisymm String strLe :=
  ⟨fun a b hab hba => by
    cases a with
    | mk da =>
      cases b with
      | mk db => exact congrArg String.mk (charsLe_antisymm hab hba)⟩

/-! ## Claim C3: zero weight total in `weighted_mean` / `weighted_std` -/

/-- C3, counterexample: with one non-missing value and weight `0.0`, the
weights at the non-missing positions sum to zero and `weighted_mean` does
not return the `NaN` marker — `np.average` raises `ZeroDivisionError`
(modelled as `err`), refuting the claim that a zero weight total yields
`NaN` rather than an exception. -/
theorem weighted_mean_zero_weight_not_nan :
    weighted_mean [some 1] (some [some 0]) = .err ∧
    weighted_mean [some 1] (some [some 0]) ≠ .nan := by
  norm_num [weighted_mean, validPairs, List.filterMap_cons, List.zip]
  decide

/-- C3 (amended): for every value sequence with at least one non-missing
value and every weight vector whose entries at the non-missing positions sum
to zero, `weighted_mean` (and `weighted_std` when at least two non-missing
values remain) raises `ZeroDivisionError` from `np.average` — an exception
(`err`), not the `NaN` undefined-result marker. -/
theorem zero_weight_total_raises (values ws : List (Option ℚ))
    (hne : (values.filterMap id).length ≠ 0)
    (h0 : ((validPairs values ws).map Prod.snd).sum = 0) :
    weighted_mean values (some ws) = .err ∧
    (2 ≤ (values.filterMap id).length → weighted_std_sq values (some ws) = .err) := by
  constructor
  · simp [weighted_mean, hne, h0]
  · intro h2
    have : ¬ (values.filterMap id).length ≤ 1 := by omega
    simp [weighted_std_sq, this, h0]

/-- C3 witness: the amended theorem at a concrete input. -/
theorem zero_weight_total_raises_witness :
    weighted_mean [some 1, some 2] (some [some 0, some 0]) = .err ∧
    (2 ≤ (([some 1, some 2] : List (Option ℚ)).filterMap id).length →
      weighted_std_sq [some 1, some 2] (some [some 0, some 0]) = .err) :=
  zero_weight_total_raises [some 1, some 2] [some 0, some 0]
    (by norm_num [List.filterMap_cons])
    (by norm_num [validPairs, List.filterMap_cons, List.zip])

/-! ## Claim C6: `load_config` schema check -/

/-- C6, counterexample: a serialized schema whose `questions` section is
present but an empty list loads *successfully* (as zero groups), refuting
the claim that an empty questions section fails with a schema error:
`not config` is false for the non-empty mapping `{'questions': []}` and
`'questions' not in config` is false too. -/
theorem load_config_empty_questions_ok :
    load_config (some ⟨some (some []), none⟩) = .ok ([], none) := rfl

/-- C6 (amended): `load_config` fails with the schema `ValueError` exactly
when the parsed config is falsy (empty) or lacks the `questions` key; a
`questions` key holding `null` fails with a `TypeError` instead (iterating
`None`); a `questions` list — empty or not — loads without error, returning
the mapped group sequence in order and the stripped optional
breakdown-dimension identifier list. -/
theorem load_config_questions_check :
    (load_config none = .error .valueError) ∧
    (∀ cats, load_config (some ⟨none, cats⟩) = .error .valueError) ∧
    (∀ cats, load_config (some ⟨some none, cats⟩) = .error .typeError) ∧
    (∀ qs cats, load_config (some ⟨some (some qs), cats⟩) =
      .ok (qs.map rawToQuestionDef, cats.map fun l => l.map pyStrip)) :=
  ⟨rfl, fun _ => rfl, fun _ => rfl, fun _ _ => rfl⟩

/-! ## Claim C10: multiple-choice mention coding and denominator -/

/-- C10: for a `multiple_choice` group, `get_numeric_data` maps a cell to 1
exactly when its stripped string form is `MENTIONED` — a missing cell prints
as `'nan'` and becomes 0, not missing — and the unweighted
`multiple_choice_table` percentage of every row is its mention count over
the full row count `len(data)` of the group dataframe. -/
theorem multiple_choice_denominator (df : DataFrame) (q : QuestionDef)
    (hq : q.question_type = "multiple_choice") :
    (∀ v, mentionParse v = .num 1 ↔ ∃ s, v = some s ∧ pyStrip s = "MENTIONED") ∧
    (mentionParse none = .num 0) ∧
    (∀ lbl col, (lbl, col) ∈ get_numeric_data df q →
      ∃ ci, (ci, lbl) ∈ q.columns.zip q.column_labels ∧
        col = ((df.getD ci ⟨"", []⟩).cells).map mentionParse) ∧
    (∀ row ∈ multiple_choice_table (get_numeric_data df q) none,
      ∃ lbl col, (lbl, col) ∈ get_numeric_data df q ∧
        row.opcja = lbl ∧ row.n = ((col.filter mcIsOne).length : ℚ) ∧
        row.pct = roundDec 1
          (if 0 < mcNTotal (get_numeric_data df q) then
            ((col.filter mcIsOne).length : ℚ) / mcNTotal (get_numeric_data df q) * 100
           else 0)) := by
  refine ⟨?_, ?_, ?_, ?_⟩
  · intro v
    constructor
    · intro h
      cases v with
      | none =>
        rw [show mentionParse none = .num 0 from rfl] at h
        exact absurd (Cell.num.inj h) (by norm_num)
      | some s =>
        by_cases hs : pyStrip s = "MENTIONED"
        · exact ⟨s, rfl, hs⟩
        · rw [show mentionParse (some s) = if pyStrip s = "MENTIONED" then .num 1 else .num 0
              from rfl, if_neg hs] at h
          exact absurd (Cell.num.inj h) (by norm_num)
    · rintro ⟨s, rfl, hs⟩
      simp [mentionParse, strOfCell, hs]
  · rfl
  · intro lbl col hmem
    have hcp : cellParser q = mentionParse := by
      rw [cellParser, hq, if_neg (by decide), if_neg (by decide), if_pos rfl]
    simp only [get_numeric_data, hcp] at hmem
    obtain ⟨p, hp, heq⟩ := List.mem_map.mp hmem
    refine ⟨p.1, ?_, ?_⟩
    · have h1 : lbl = p.2 := by
        have := congrArg Prod.fst heq
        simpa using this.symm
      rw [h1]
      exact hp
    · have := congrArg Prod.snd heq
      simpa using this.symm
  · intro row hrow
    simp only [multiple_choice_table] at hrow
    have hrow2 := ((List.perm_insertionSort _ _).mem_iff).mp hrow
    obtain ⟨p, hpf, heq⟩ := List.mem_map.mp hrow2
    have hpd : p ∈ get_numeric_data df q := List.mem_of_mem_filter hpf
    refine ⟨p.1, p.2, hpd, ?_, ?_, ?_⟩
    · rw [← heq]
    · rw [← heq]
    · rw [← heq]

/-- C10 witness data: a two-column multiple-choice group with a missing cell. -/
def mcWitnessDf : DataFrame :=
  [⟨"A2. Usługi? Opcja A", [some "MENTIONED", some "NOT MENTIONED", none]⟩,
   ⟨"Opcja B", [some "MENTIONED", some "MENTIONED", some "MENTIONED"]⟩]

/-- C10 witness data: the question group of `mcWitnessDf`. -/
def mcWitnessQ : QuestionDef :=
  ⟨"A2", "A2. Usługi?", [0, 1], ["Opcja A", "Opcja B"], "multiple_choice",
   "multiple_choice_bar", none, none, [], [], false⟩

/-- C10 witness: the theorem at a concrete group. -/
theorem multiple_choice_denominator_witness :
    mentionParse none = .num 0 ∧ mcWitnessQ.question_type = "multiple_choice" :=
  ⟨(multiple_choice_denominator mcWitnessDf mcWitnessQ rfl).2.1, rfl⟩

/-! ## Claim C9: `test_group_differences` dispatch and guards -/

/-- C9: fewer than 5 valid paired observations, or fewer than 2 distinct
group values among them, yield the `NaN` undefined-result marker (never an
exception); with exactly 2 groups the default `'auto'` test type dispatches
to the rank-based Mann-Whitney U test and an explicit `'ttest'` to the
two-sample t-test; with 3 or more groups the Kruskal-Wallis test is invoked
(its caught failure yielding the `error` marker).  Stated for every
implementation `S` of the external scipy tests. -/
theorem test_group_differences_dispatch (S : ScipyStats) (dataCol : List (Option ℚ))
    (groupCol : List (Option String)) (tt : String) :
    ((tgdPairs dataCol groupCol).length < 5 →
      test_group_differences S dataCol groupCol tt = ⟨"insufficient_data", .nan, .nan⟩) ∧
    (¬ (tgdPairs dataCol groupCol).length < 5 →
      (tgdGroups dataCol groupCol).length < 2 →
      test_group_differences S dataCol groupCol tt = ⟨"single_group", .nan, .nan⟩) ∧
    (¬ (tgdPairs dataCol groupCol).length < 5 →
      (tgdGroups dataCol groupCol).length = 2 → tt = "auto" →
      test_group_differences S dataCol groupCol tt =
        ⟨"Mann-Whitney U",
         .val (roundDec 2 (S.mannwhitneyu ((tgdGroupData dataCol groupCol).getD 0 [])
            ((tgdGroupData dataCol groupCol).getD 1 [])).1),
         .val (roundDec 4 (S.mannwhitneyu ((tgdGroupData dataCol groupCol).getD 0 [])
            ((tgdGroupData dataCol groupCol).getD 1 [])).2)⟩) ∧
    (¬ (tgdPairs dataCol groupCol).length < 5 →
      (tgdGroups dataCol groupCol).length = 2 → tt = "ttest" →
      test_group_differences S dataCol groupCol tt =
        ⟨"t-test",
         .val (roundDec 2 (S.ttest_ind ((tgdGroupData dataCol groupCol).getD 0 [])
            ((tgdGroupData dataCol groupCol).getD 1 [])).1),
         .val (roundDec 4 (S.ttest_ind ((tgdGroupData dataCol groupCol).getD 0 [])
            ((tgdGroupData dataCol groupCol).getD 1 [])).2)⟩) ∧
    (¬ (tgdPairs dataCol groupCol).length < 5 →
      3 ≤ (tgdGroups dataCol groupCol).length →
      (∀ s p, S.kruskal (tgdGroupData dataCol groupCol) = .ok (s, p) →
        test_group_differences S dataCol groupCol tt =
          ⟨"Kruskal-Wallis", .val (roundDec 2 s), .val (roundDec 4 p)⟩) ∧
      (S.kruskal (tgdGroupData dataCol groupCol) = .error () →
        test_group_differences S dataCol groupCol tt = ⟨"error", .nan, .nan⟩)) := by
  refine ⟨?_, ?_, ?_, ?_, ?_⟩
  · intro h5
    simp only [test_group_differences, if_pos h5]
  · intro h5 h2
    simp only [test_group_differences, if_neg h5, if_pos h2]
  · intro h5 h2 htt
    subst htt
    simp only [test_group_differences, if_neg h5, if_neg (by omega : ¬ (tgdGroups dataCol groupCol).length < 2),
      if_pos h2, if_pos rfl]
    simp
  · intro h5 h2 htt
    subst htt
    simp only [test_group_differences, if_neg h5, if_neg (by omega : ¬ (tgdGroups dataCol groupCol).length < 2),
      if_pos h2, if_neg (by decide : ¬ ("ttest" : String) = "auto"), if_pos rfl]
    simp
  · intro h5 h3
    constructor
    · intro s p hk
      simp only [test_group_differences, if_neg h5,
        if_neg (by omega : ¬ (tgdGroups dataCol groupCol).length < 2),
        if_neg (by omega : ¬ (tgdGroups dataCol groupCol).length = 2), hk]
    · intro hk
      simp only [test_group_differences, if_neg h5,
        if_neg (by omega : ¬ (tgdGroups dataCol groupCol).length < 2),
        if_neg (by omega : ¬ (tgdGroups dataCol groupCol).length = 2), hk]

/-- C9 witness data: a constant implementation of the external tests. -/
def scipyConst : ScipyStats :=
  ⟨fun _ _ => (0, 0), fun _ _ => (0, 0), fun _ => .ok (0, 0)⟩

/-- C9 witness: the theorem's guard and Mann-Whitney branches at concrete
inputs. -/
theorem test_group_differences_dispatch_witness :
    test_group_differences scipyConst [some 1, some 2] [some "a", some "b"] "auto" =
      ⟨"insufficient_data", .nan, .nan⟩ ∧
    test_group_differences scipyConst
      [some 1, some 2, some 3, some 1, some 2]
      [some "a", some "a", some "a", some "b", some "b"] "auto" =
      ⟨"Mann-Whitney U", .val (roundDec 2 0), .val (roundDec 4 0)⟩ := by
  constructor
  · exact (test_group_differences_dispatch scipyConst [some 1, some 2]
      [some "a", some "b"] "auto").1 (by decide)
  · exact (test_group_differences_dispatch scipyConst
      [some 1, some 2, some 3, some 1, some 2]
      [some "a", some "a", some "a", some "b", some "b"] "auto").2.2.1
      (by decide) (by decide) rfl

/-! ## Claim C4: `frequency_table` order and percentages -/

/-- C4, counterexample: with a weight vector, the categories of
`frequency_table` come out in the sorted order of the `groupby` keys, not in
first-seen order — for the column `["b", "a"]` the weighted table lists
`["a", "b"]` while the first-seen order is `["b", "a"]`. -/
theorem frequency_table_weighted_not_first_seen :
    ((frequency_table [some "b", some "a"] (some [some 1, some 1]) false).map
      fun r => r.kategoria) = ["a", "b"] ∧
    firstSeen (ftValid [some "b", some "a"]) = ["b", "a"] ∧
    (["a", "b"] : List String) ≠ ["b", "a"] := by decide

/-- C4 (amended): `frequency_table` lists the distinct non-missing,
non-blank categories in first-seen order only in the unweighted case; with
a weight vector the `groupby` path lists them in sorted (code-point) order.
With `sort_by_count` the rows are sorted descending by weighted count, and
every row's percentage is its weighted count over the total weighted count
times 100 rounded to 1 decimal (0 when the total is not positive). -/
theorem frequency_table_order_and_pct (series : List (Option String))
    (ws : List (Option ℚ)) (weights : Option (List (Option ℚ))) (sortByCount : Bool) :
    ((frequency_table series none false).map fun r => r.kategoria)
        = firstSeen (ftValid series) ∧
    List.Sorted strLe ((frequency_table series (some ws) false).map fun r => r.kategoria) ∧
    List.Sorted (fun a b : FreqRow => b.n ≤ a.n) (frequency_table series weights true) ∧
    (∀ row ∈ frequency_table series weights sortByCount,
      row.n = catWeight series weights row.kategoria ∧
      (0 < ftTotal series weights →
        row.pct = roundDec 1 (row.n / ftTotal series weights * 100)) ∧
      (¬ 0 < ftTotal series weights → row.pct = 0)) := by
  have hmapkat : ∀ (cats : List String) (nf : String → ℚ) (pf : String × ℚ → ℚ),
      (((cats.map fun c => (c, nf c)).map fun p =>
        (⟨p.1, p.2, pf p⟩ : FreqRow)).map fun r => r.kategoria) = cats := by
    intro cats nf pf
    induction cats with
    | nil => rfl
    | cons a t ih => simp only [List.map_cons, ih]
  refine ⟨?_, ?_, ?_, ?_⟩
  · have hft : frequency_table series none false
        = ((ftCats series none).map fun c => (c, catWeight series none c)).map
            fun p => ⟨p.1, p.2,
              if 0 < ftTotal series none then roundDec 1 (p.2 / ftTotal series none * 100)
              else 0⟩ := by
      simp [frequency_table]
    rw [hft, hmapkat]
    rfl
  · have hft : frequency_table series (some ws) false
        = ((ftCats series (some ws)).map fun c => (c, catWeight series (some ws) c)).map
            fun p => ⟨p.1, p.2,
              if 0 < ftTotal series (some ws) then
                roundDec 1 (p.2 / ftTotal series (some ws) * 100)
              else 0⟩ := by
      simp [frequency_table]
    rw [hft, hmapkat]
    exact List.sorted_insertionSort strLe _
  · letI : IsTotal (String × ℚ) (fun a b => b.2 ≤ a.2) := ⟨fun a b => le_total b.2 a.2⟩
    letI : IsTrans (String × ℚ) (fun a b => b.2 ≤ a.2) :=
      ⟨fun _ _ _ h1 h2 => le_trans h2 h1⟩
    have hs := List.sorted_insertionSort (fun a b : String × ℚ => b.2 ≤ a.2)
      ((ftCats series weights).map fun c => (c, catWeight series weights c))
    simp only [frequency_table, if_pos rfl]
    exact List.Pairwise.map _ (fun a b h => h) hs
  · intro row hrow
    simp only [frequency_table] at hrow
    obtain ⟨p, hp, heq⟩ := List.mem_map.mp hrow
    have hpfreq : p ∈ (ftCats series weights).map
        fun c => (c, catWeight series weights c) := by
      by_cases hsc : sortByCount
      · rw [if_pos hsc] at hp
        exact ((List.perm_insertionSort _ _).mem_iff).mp hp
      · rw [if_neg hsc] at hp
        exact hp
    obtain ⟨c, _, hpc⟩ := List.mem_map.mp hpfreq
    subst hpc
    refine ⟨?_, ?_, ?_⟩
    · rw [← heq]
    · intro hpos
      rw [← heq]
      simp only [if_pos hpos]
    · intro hpos
      rw [← heq]
      simp only [if_neg hpos]

/-- C4 witness: the amended theorem's percentage clause at a concrete
one-category column. -/
theorem frequency_table_order_and_pct_witness :
    ((frequency_table [some "x"] none false).get ⟨0, by decide⟩).n
      = catWeight [some "x"] none
          (((frequency_table [some "x"] none false).get ⟨0, by decide⟩).kategoria) ∧
    ((frequency_table [some "x"] none false).get ⟨0, by decide⟩).pct
      = roundDec 1 (((frequency_table [some "x"] none false).get ⟨0, by decide⟩).n
          / ftTotal [some "x"] none * 100) := by
  have h := (frequency_table_order_and_pct [some "x"] [] none false).2.2.2
    ((frequency_table [some "x"] none false).get ⟨0, by decide⟩)
    (List.get_mem _ _ _)
  exact ⟨h.1, h.2.1 (by norm_num [ftTotal, ftValid, List.filterMap_cons]; decide)⟩

/-! ## Claim C7: `cross_tab_frequencies` column sums -/

theorem getD_map_lt {α β : Type} (l : List α) (f : α → β) (j : ℕ) (hj : j < l.length)
    (d : β) (d' : α) : (l.map f).getD j d = f (l.getD j d') := by
  rw [List.getD_eq_getElem?_getD, List.getD_eq_getElem?_getD, List.getElem?_map,
    List.getElem?_eq_getElem hj]
  rfl

/-- C7, counterexample: three equal data categories in one breakdown
category: each cell rounds `100/3` to `33.3`, so the returned column sums to
`99.9` — a nonzero value that is not exactly `100.0`, while the column's
total weight (3) is nonzero; this refutes the exact-sum claim. -/
theorem cross_tab_sum_not_exact :
    (((cross_tab_frequencies [some "a", some "b", some "c"]
        [some "g", some "g", some "g"] none).cells).map fun row => row.getD 0 0).sum
      = 999/10 ∧
    ctColSum [some "a", some "b", some "c"] [some "g", some "g", some "g"] none "g" = 3 ∧
    ((999 : ℚ)/10 ≠ 100) ∧ ((999 : ℚ)/10 ≠ 0) := by
  have hpairs : ctPairs [some "a", some "b", some "c"] [some "g", some "g", some "g"] none
      = [("a", "g", (1:ℚ)), ("b", "g", 1), ("c", "g", 1)] := rfl
  have hrows : ctRowCats [some "a", some "b", some "c"]
      [some "g", some "g", some "g"] none = ["a", "b", "c"] := by decide
  have hcols : ctColCats [some "a", some "b", some "c"]
      [some "g", some "g", some "g"] none = ["g"] := by decide
  refine ⟨?_, ?_, by norm_num, by norm_num⟩
  · simp only [cross_tab_frequencies, hrows, hcols]
    simp +decide [ctColSum, ctRawCell, hpairs, hrows, List.filter_cons]
    norm_num [roundDec, roundHalfEven]
  · simp +decide [ctColSum, ctRawCell, hpairs, hrows, List.filter_cons]
    norm_num

/-- C7 (amended): every column of the matrix returned by
`cross_tab_frequencies` sums to exactly `0.0` when that breakdown category
has zero total weight (never dividing by zero), and otherwise sums to
`100.0` up to the per-cell rounding to 1 decimal: the sum differs from 100
by at most `0.05` per data category (before rounding the normalized column
sums to exactly 100). -/
theorem cross_tab_frequencies_col_sums (dataCol groupCol : List (Option String))
    (weights : Option (List ℚ)) (j : ℕ)
    (hj : j < (ctColCats dataCol groupCol weights).length) :
    (ctColSum dataCol groupCol weights ((ctColCats dataCol groupCol weights).getD j "") = 0 →
      (((cross_tab_frequencies dataCol groupCol weights).cells).map
        fun rowvals => rowvals.getD j 0).sum = 0) ∧
    (ctColSum dataCol groupCol weights ((ctColCats dataCol groupCol weights).getD j "") ≠ 0 →
      |(((cross_tab_frequencies dataCol groupCol weights).cells).map
          fun rowvals => rowvals.getD j 0).sum - 100|
        ≤ ((ctRowCats dataCol groupCol weights).length : ℚ) / 20) := by
  have hcells : ((cross_tab_frequencies dataCol groupCol weights).cells).map
      (fun rowvals => rowvals.getD j 0)
      = (ctRowCats dataCol groupCol weights).map fun r =>
          if ctColSum dataCol groupCol weights
              ((ctColCats dataCol groupCol weights).getD j "") = 0 then 0
          else
            match ctRawCell dataCol groupCol weights r
                ((ctColCats dataCol groupCol weights).getD j "") with
            | none => 0
            | some v => roundDec 1 (v / ctColSum dataCol groupCol weights
                ((ctColCats dataCol groupCol weights).getD j "") * 100) := by
    simp only [cross_tab_frequencies, List.map_map]
    congr 1
    funext r
    exact getD_map_lt _ _ j hj 0 ""
  constructor
  · intro hS
    rw [hcells]
    apply List.sum_eq_zero
    intro x hx
    obtain ⟨r, _, hr⟩ := List.mem_map.mp hx
    rw [if_pos hS] at hr
    exact hr.symm
  · intro hS
    rw [hcells]
    have hgoal : ∀ r ∈ ctRowCats dataCol groupCol weights,
        |(if ctColSum dataCol groupCol weights
              ((ctColCats dataCol groupCol weights).getD j "") = 0 then 0
          else
            match ctRawCell dataCol groupCol weights r
                ((ctColCats dataCol groupCol weights).getD j "") with
            | none => 0
            | some v => roundDec 1 (v / ctColSum dataCol groupCol weights
                ((ctColCats dataCol groupCol weights).getD j "") * 100))
          - (ctRawCell dataCol groupCol weights r
              ((ctColCats dataCol groupCol weights).getD j "")).getD 0
            / ctColSum dataCol groupCol weights
              ((ctColCats dataCol groupCol weights).getD j "") * 100| ≤ 1/20 := by
      intro r _
      rw [if_neg hS]
      cases hraw : ctRawCell dataCol groupCol weights r
          ((ctColCats dataCol groupCol weights).getD j "") with
      | none =>
        simp only [Option.getD_none]
        norm_num
      | some v =>
        simp only [Option.getD_some]
        exact roundDec_one_abs_le _
    have hb := sum_map_abs_diff_le (ctRowCats dataCol groupCol weights) _ _ (1/20) hgoal
    have hx : ((ctRowCats dataCol groupCol weights).map fun r =>
        (ctRawCell dataCol groupCol weights r
            ((ctColCats dataCol groupCol weights).getD j "")).getD 0
          / ctColSum dataCol groupCol weights
            ((ctColCats dataCol groupCol weights).getD j "") * 100).sum = 100 := by
      have hfac : ∀ r, (ctRawCell dataCol groupCol weights r
            ((ctColCats dataCol groupCol weights).getD j "")).getD 0
          / ctColSum dataCol groupCol weights
            ((ctColCats dataCol groupCol weights).getD j "") * 100
          = (ctRawCell dataCol groupCol weights r
              ((ctColCats dataCol groupCol weights).getD j "")).getD 0
            * (100 / ctColSum dataCol groupCol weights
                ((ctColCats dataCol groupCol weights).getD j "")) := by
        intro r
        ring
      simp only [hfac]
      rw [List.sum_map_mul_right]
      rw [show ((ctRowCats dataCol groupCol weights).map fun r =>
          (ctRawCell dataCol groupCol weights r
            ((ctColCats dataCol groupCol weights).getD j "")).getD 0).sum
        = ctColSum dataCol groupCol weights
            ((ctColCats dataCol groupCol weights).getD j "") from rfl]
      rw [mul_comm]
      exact div_mul_cancel₀ 100 hS
    calc |((ctRowCats dataCol groupCol weights).map _).sum - 100|
        = |((ctRowCats dataCol groupCol weights).map _).sum
            - ((ctRowCats dataCol groupCol weights).map _).sum| := by rw [hx]
      _ ≤ ((ctRowCats dataCol groupCol weights).length : ℚ) * (1/20) := hb
      _ = ((ctRowCats dataCol groupCol weights).length : ℚ) / 20 := by ring

/-- C7 witness: the amended theorem at the three-category concrete input. -/
theorem cross_tab_frequencies_col_sums_witness :
    |(((cross_tab_frequencies [some "a", some "b", some "c"]
        [some "g", some "g", some "g"] none).cells).map
          fun rowvals => rowvals.getD 0 0).sum - 100|
      ≤ ((ctRowCats [some "a", some "b", some "c"]
          [some "g", some "g", some "g"] none).length : ℚ) / 20 :=
  (cross_tab_frequencies_col_sums [some "a", some "b", some "c"]
    [some "g", some "g", some "g"] none 0 (by decide)).2 (by
      have hpairs : ctPairs [some "a", some "b", some "c"]
          [some "g", some "g", some "g"] none
          = [("a", "g", (1:ℚ)), ("b", "g", 1), ("c", "g", 1)] := rfl
      have hrows : ctRowCats [some "a", some "b", some "c"]
          [some "g", some "g", some "g"] none = ["a", "b", "c"] := by decide
      simp +decide [ctColSum, ctRawCell, hpairs, hrows, List.filter_cons]
      norm_num)

/-! ## Claim C2: uniform weights versus unweighted statistics -/

theorem validPairs_replicate (values : List (Option ℚ)) (c : ℚ) :
    validPairs values (List.replicate values.length (some c))
      = (values.filterMap id).map fun x => (x, c) := by
  induction values with
  | nil => rfl
  | cons a t ih =>
    cases a with
    | none => simpa [validPairs, List.replicate_succ] using ih
    | some x =>
      simp [validPairs, List.replicate_succ] at ih ⊢
      exact ih

theorem sum_map_const_rat {α : Type} (l : List α) (c : ℚ) :
    (l.map fun _ => c).sum = l.length * c := by
  induction l with
  | nil => simp
  | cons a t ih =>
    simp only [List.map_cons, List.sum_cons, ih, List.length_cons]
    push_cast
    ring

theorem orderedInsert_map_pair (c x : ℚ) (l : List ℚ) :
    List.orderedInsert (fun p q : ℚ × ℚ => p.1 ≤ q.1) (x, c) (l.map fun v => (v, c))
      = (List.orderedInsert (· ≤ ·) x l).map fun v => (v, c) := by
  induction l with
  | nil => rfl
  | cons a t ih =>
    simp only [List.map_cons, List.orderedInsert]
    by_cases h : x ≤ a
    · rw [if_pos h, if_pos h]
      rfl
    · rw [if_neg h, if_neg h]
      simp only [List.map_cons, ih]

theorem insertionSort_map_pair (c : ℚ) (l : List ℚ) :
    List.insertionSort (fun p q : ℚ × ℚ => p.1 ≤ q.1) (l.map fun v => (v, c))
      = (List.insertionSort (· ≤ ·) l).map fun v => (v, c) := by
  induction l with
  | nil => rfl
  | cons a t ih =>
    simp only [List.map_cons, List.insertionSort, ih, orderedInsert_map_pair]

theorem cumFirst_map_const (cutoff c : ℚ) :
    ∀ (d : ℕ) (s : List ℚ) (acc : ℚ),
      (∀ i : ℕ, i < d → acc + ((i : ℚ) + 1) * c < cutoff) →
      cutoff ≤ acc + ((d : ℚ) + 1) * c → d < s.length →
      cumFirst cutoff acc (s.map fun v => (v, c)) = some (s.getD d 0) := by
  intro d
  induction d with
  | zero =>
    intro s acc _ hge hd
    cases s with
    | nil => simp at hd
    | cons h t =>
      simp only [List.map_cons, cumFirst]
      rw [if_pos (by push_cast at hge; linarith)]
      rfl
  | succ dd ih =>
    intro s acc hlt hge hd
    cases s with
    | nil => simp at hd
    | cons h t =>
      simp only [List.map_cons, cumFirst]
      rw [if_neg (by
        have := hlt 0 (Nat.succ_pos dd)
        push_cast at this
        intro hcon
        linarith)]
      have hrec := ih t (acc + c)
        (fun i hi => by
          have := hlt (i + 1) (by omega)
          push_cast at this ⊢
          linarith)
        (by push_cast at hge ⊢; linarith)
        (by simpa using Nat.lt_of_succ_lt_succ hd)
      rw [hrec]
      rfl

/-- C2, counterexample: on `[0, 2]` with uniform weights `[1, 1]`,
`weighted_median` returns the lower middle order statistic 0 while the
unweighted pandas median interpolates to 1, and the weighted (population)
standard deviation squared is 1 while the unweighted (sample, `ddof=1`)
squared standard deviation is 2 — so neither the weighted median nor the
weighted standard deviation equals its unweighted counterpart under uniform
positive weights. -/
theorem uniform_weights_median_std_differ :
    weighted_median [some 0, some 2] (some [some 1, some 1]) = .val 0 ∧
    weighted_median [some 0, some 2] none = .val 1 ∧
    weighted_std_sq [some 0, some 2] (some [some 1, some 1]) = .val 1 ∧
    weighted_std_sq [some 0, some 2] none = .val 2 ∧
    (StatValue.val 0 ≠ .val 1) ∧ (StatValue.val (1 : ℚ) ≠ .val 2) := by
  refine ⟨?_, ?_, ?_, ?_, ?_, ?_⟩
  · norm_num [weighted_median, validPairs, List.filterMap_cons, List.zip,
      List.insertionSort, List.orderedInsert, cumFirst]
  · norm_num [weighted_median, pandasMedian, List.filterMap_cons,
      List.insertionSort, List.orderedInsert]
  · norm_num [weighted_std_sq, validPairs, List.filterMap_cons, List.zip]
  · norm_num [weighted_std_sq, List.filterMap_cons]
  · intro h
    exact absurd (StatValue.val.inj h) (by norm_num)
  · intro h
    exact absurd (StatValue.val.inj h) (by norm_num)

/-- C2 (amended): under a uniform positive weight vector, `weighted_mean`
equals the unweighted mean; `weighted_median` equals the unweighted pandas
median whenever the number of non-missing values is odd (for an even count
the weighted scan returns the lower middle order statistic, the unweighted
median the average of the two middle ones); and `weighted_std` computes the
population standard deviation, whose square times `n` equals the square of
the unweighted sample (`ddof = 1`) standard deviation times `n - 1` — the
two coincide only for constant data. -/
theorem uniform_weights_stats (values : List (Option ℚ)) (c : ℚ) (hc : 0 < c)
    (hne : values.filterMap id ≠ []) :
    (weighted_mean values (some (List.replicate values.length (some c)))
      = weighted_mean values none) ∧
    ((values.filterMap id).length % 2 = 1 →
      weighted_median values (some (List.replicate values.length (some c)))
        = weighted_median values none) ∧
    (2 ≤ (values.filterMap id).length →
      ∃ v w : ℚ,
        weighted_std_sq values (some (List.replicate values.length (some c))) = .val v ∧
        weighted_std_sq values none = .val w ∧
        v * (values.filterMap id).length = w * ((values.filterMap id).length - 1)) := by
  set vs := values.filterMap id with hvs
  have hn0 : vs.length ≠ 0 := fun h => hne (List.length_eq_zero.mp h)
  have hvp : validPairs values (List.replicate values.length (some c))
      = vs.map fun x => (x, c) := validPairs_replicate values c
  have hsnd : ((vs.map fun x => (x, c)).map Prod.snd).sum = (vs.length : ℚ) * c := by
    rw [List.map_map]
    exact sum_map_const_rat vs c
  have hprod : ((vs.map fun x => (x, c)).map fun p => p.1 * p.2).sum = vs.sum * c := by
    rw [List.map_map]
    have := List.sum_map_mul_right vs (fun x => x) c
    simpa using this
  have hwne : (vs.length : ℚ) * c ≠ 0 :=
    mul_ne_zero (Nat.cast_ne_zero.mpr hn0) (ne_of_gt hc)
  refine ⟨?_, ?_, ?_⟩
  · simp only [weighted_mean, ← hvs, hvp]
    rw [if_neg hn0, if_neg hn0, hprod, hsnd, if_neg hwne]
    exact congrArg StatValue.val (mul_div_mul_right vs.sum (vs.length : ℚ) (ne_of_gt hc))
  · intro hodd
    obtain ⟨t, ht⟩ : ∃ t, vs.length = 2 * t + 1 := ⟨vs.length / 2, by omega⟩
    simp only [weighted_median, ← hvs, hvp]
    rw [if_neg hn0, if_neg hn0, insertionSort_map_pair]
    have hslen : (List.insertionSort (· ≤ ·) vs).length = vs.length :=
      (List.perm_insertionSort _ _).length_eq
    have hsnds : (((List.insertionSort (· ≤ ·) vs).map fun v => (v, c)).map Prod.snd).sum
        = (vs.length : ℚ) * c := by
      have h1 : (((List.insertionSort (· ≤ ·) vs).map fun v => (v, c)).map Prod.snd).sum
          = ((List.insertionSort (· ≤ ·) vs).length : ℚ) * c := by
        rw [List.map_map]
        exact sum_map_const_rat _ c
      rw [h1, hslen]
    rw [hsnds]
    have hcum := cumFirst_map_const ((vs.length : ℚ) * c / 2) c t
      (List.insertionSort (· ≤ ·) vs) 0
      (fun i hi => by
        have hi' : (i : ℚ) + 1 ≤ (t : ℚ) := by exact_mod_cast Nat.succ_le_of_lt hi
        have hlen : (vs.length : ℚ) = 2 * t + 1 := by exact_mod_cast ht
        rw [hlen]
        nlinarith)
      (by
        have hlen : (vs.length : ℚ) = 2 * t + 1 := by exact_mod_cast ht
        rw [hlen]
        nlinarith)
      (by rw [hslen]; omega)
    rw [hcum]
    simp only [pandasMedian, ← hvs]
    rw [hslen, if_pos hodd]
    have : vs.length / 2 = t := by omega
    rw [this]
  · intro h2
    have hle : ¬ vs.length ≤ 1 := by omega
    refine ⟨((vs.map fun x => (x - vs.sum / (vs.length : ℚ)) ^ 2).sum) / (vs.length : ℚ),
            ((vs.map fun x => (x - vs.sum / (vs.length : ℚ)) ^ 2).sum) / ((vs.length : ℚ) - 1),
            ?_, ?_, ?_⟩
    · simp only [weighted_std_sq, ← hvs, hvp]
      rw [if_neg hle, hprod, hsnd, if_neg hwne,
        mul_div_mul_right vs.sum (vs.length : ℚ) (ne_of_gt hc), List.map_map]
      have hmap : ((fun p : ℚ × ℚ => (p.1 - vs.sum / (vs.length : ℚ)) ^ 2 * p.2) ∘
          fun x => (x, c)) = fun x => (x - vs.sum / (vs.length : ℚ)) ^ 2 * c := rfl
      rw [hmap, List.sum_map_mul_right vs (fun x => (x - vs.sum / (vs.length : ℚ)) ^ 2) c,
        mul_div_mul_right _ _ (ne_of_gt hc)]
    · simp only [weighted_std_sq, ← hvs]
      rw [if_neg hle]
    · have hn' : (vs.length : ℚ) ≠ 0 := Nat.cast_ne_zero.mpr hn0
      have hn1 : (vs.length : ℚ) - 1 ≠ 0 := by
        have : (2 : ℚ) ≤ (vs.length : ℚ) := by exact_mod_cast h2
        linarith
      rw [div_mul_cancel₀ _ hn', div_mul_cancel₀ _ hn1]

/-- C2 witness: the amended theorem at `[1, 2, 3]` with uniform weight 1. -/
theorem uniform_weights_stats_witness :
    (weighted_mean [some 1, some 2, some 3]
        (some (List.replicate ([some 1, some 2, some 3] : List (Option ℚ)).length (some 1)))
      = weighted_mean [some 1, some 2, some 3] none) ∧
    (weighted_median [some 1, some 2, some 3]
        (some (List.replicate ([some 1, some 2, some 3] : List (Option ℚ)).length (some 1)))
      = weighted_median [some 1, some 2, some 3] none) := by
  have h := uniform_weights_stats [some 1, some 2, some 3] 1 one_pos (by decide)
  exact ⟨h.1, h.2.1 (by decide)⟩

/-! ## Shared dictionary lemmas (`labels[n] = ...` folds) -/

theorem lookup_assocUpdate_self (d : List (ℕ × String)) (n : ℕ) (l : String) :
    (assocUpdate d n l).lookup n = some l := by
  induction d with
  | nil => simp [assocUpdate, List.lookup]
  | cons p t ih =>
    by_cases h : p.1 = n
    · simp [assocUpdate, h, List.lookup]
    · simp only [assocUpdate]
      rw [if_neg (by exact h)]
      simp [List.lookup, ih,
        show (n == p.1) = false from beq_eq_false_iff_ne.mpr fun he => h he.symm]

theorem lookup_assocUpdate_ne (d : List (ℕ × String)) (n m : ℕ) (l : String)
    (h : m ≠ n) : (assocUpdate d n l).lookup m = d.lookup m := by
  induction d with
  | nil => simp [assocUpdate, List.lookup, show (m == n) = false from beq_eq_false_iff_ne.mpr h]
  | cons p t ih =>
    by_cases hp : p.1 = n
    · simp only [assocUpdate, if_pos hp]
      simp [List.lookup,
        show (m == n) = false from beq_eq_false_iff_ne.mpr h,
        show (m == p.1) = false from beq_eq_false_iff_ne.mpr (by rw [hp]; exact h)]
    · simp only [assocUpdate, if_neg hp]
      by_cases hm : p.1 = m
      · simp [List.lookup, hm]
      · simp [List.lookup, ih,
          show (m == p.1) = false from beq_eq_false_iff_ne.mpr fun he => hm he.symm]

theorem lookup_foldl_consistent (ps : List (ℕ × String)) (d0 : List (ℕ × String))
    (n : ℕ) (l : String)
    (hmem : (n, l) ∈ ps ∨ d0.lookup n = some l)
    (hcons : ∀ l', (n, l') ∈ ps → l' = l) :
    (ps.foldl (fun acc p => assocUpdate acc p.1 p.2) d0).lookup n = some l := by
  induction ps generalizing d0 with
  | nil =>
    rcases hmem with h | h
    · exact absurd h (List.not_mem_nil _)
    · simpa using h
  | cons a t ih =>
    simp only [List.foldl_cons]
    by_cases ha : a.1 = n
    · have hal : a.2 = l := hcons a.2 (by rw [← ha]; exact List.mem_cons_self a t)
      apply ih
      · right
        rw [← ha, ← hal]
        exact lookup_assocUpdate_self d0 a.1 a.2
      · exact fun l' h' => hcons l' (List.mem_cons_of_mem a h')
    · apply ih
      · rcases hmem with h | h
        · rcases List.mem_cons.mp h with h' | h'
          · exact absurd (congrArg Prod.fst h').symm ha
          · exact Or.inl h'
        · right
          rw [lookup_assocUpdate_ne d0 a.1 n a.2 (fun he => ha he.symm)]
          exact h
      · exact fun l' h' => hcons l' (List.mem_cons_of_mem a h')

/-! ## Claim C8: the `["1: Tak", "2: Nie", "6: Nie wiem"]` column -/

/-- The raw values repeated across the rows of the C8 column. -/
def likertTriple : List String := ["1: Tak", "2: Nie", "6: Nie wiem"]

/-- Classification of any column whose values all come from `likertTriple`
and that contains each of the three: likert, sentinel {6}, usable bounds
1..2 (taken over non-sentinel codes), labels by code. -/
theorem detectValues_of_triple (vs : List String)
    (hsub : ∀ v ∈ vs, v = "1: Tak" ∨ v = "2: Nie" ∨ v = "6: Nie wiem")
    (h1 : "1: Tak" ∈ vs) (h2 : "2: Nie" ∈ vs) (h6 : "6: Nie wiem" ∈ vs) :
    detectValues vs = .likert 1 2 [(1, "Tak"), (2, "Nie"), (6, "Nie wiem")] [6] := by
  have hlen : ¬ vs.length = 0 := by
    intro h
    rw [List.length_eq_zero.mp h] at h1
    exact absurd h1 (List.not_mem_nil _)
  have hnm : ¬ (vs.all fun v => v == "MENTIONED" || v == "NOT MENTIONED") = true := by
    intro hall
    have := List.all_eq_true.mp hall _ h1
    simp at this
  have hcount : vs.countP (fun v => (likertMatch v).isSome) = vs.length :=
    List.countP_eq_length.mpr fun v hv => by
      rcases hsub v hv with h | h | h <;> subst h <;> decide
  have hpair_mem : ∀ p ∈ vs.filterMap likertMatch,
      p = (1, "Tak") ∨ p = (2, "Nie") ∨ p = (6, "Nie wiem") := by
    intro p hp
    obtain ⟨v, hv, hlm⟩ := List.mem_filterMap.mp hp
    rcases hsub v hv with h | h | h <;> subst h
    · left
      rw [show likertMatch "1: Tak" = some (1, "Tak") from by decide] at hlm
      exact (Option.some.inj hlm).symm
    · right; left
      rw [show likertMatch "2: Nie" = some (2, "Nie") from by decide] at hlm
      exact (Option.some.inj hlm).symm
    · right; right
      rw [show likertMatch "6: Nie wiem" = some (6, "Nie wiem") from by decide] at hlm
      exact (Option.some.inj hlm).symm
  have hmem1 : (1, "Tak") ∈ vs.filterMap likertMatch :=
    List.mem_filterMap.mpr ⟨"1: Tak", h1, by decide⟩
  have hmem2 : (2, "Nie") ∈ vs.filterMap likertMatch :=
    List.mem_filterMap.mpr ⟨"2: Nie", h2, by decide⟩
  have hmem6 : (6, "Nie wiem") ∈ vs.filterMap likertMatch :=
    List.mem_filterMap.mpr ⟨"6: Nie wiem", h6, by decide⟩
  have hall : List.insertionSort (· ≤ ·) ((vs.filterMap likertMatch).map Prod.fst).dedup
      = [1, 2, 6] := by
    apply List.eq_of_perm_of_sorted (r := (· ≤ ·))
    · apply (List.perm_ext_iff_of_nodup
        (((List.perm_insertionSort _ _).nodup_iff).mpr (List.nodup_dedup _))
        (by decide)).mpr
      intro a
      rw [(List.perm_insertionSort _ _).mem_iff, List.mem_dedup]
      constructor
      · intro hm
        obtain ⟨p, hp, hpa⟩ := List.mem_map.mp hm
        rcases hpair_mem p hp with h | h | h <;> subst h <;> subst hpa <;> decide
      · intro hm
        rcases List.mem_cons.mp hm with h | hm'
        · exact h ▸ List.mem_map.mpr ⟨(1, "Tak"), hmem1, rfl⟩
        rcases List.mem_cons.mp hm' with h | hm''
        · exact h ▸ List.mem_map.mpr ⟨(2, "Nie"), hmem2, rfl⟩
        rcases List.mem_cons.mp hm'' with h | hm'''
        · exact h ▸ List.mem_map.mpr ⟨(6, "Nie wiem"), hmem6, rfl⟩
        · exact absurd hm''' (List.not_mem_nil _)
    · exact List.sorted_insertionSort _ _
    · decide
  have hcons : ∀ (n : ℕ) (l l' : String), (n, l) ∈ vs.filterMap likertMatch →
      (n, l') ∈ vs.filterMap likertMatch → l = l' := by
    intro n l l' hl hl'
    rcases hpair_mem _ hl with h | h | h <;> rcases hpair_mem _ hl' with h' | h' | h' <;>
      simp_all
  have hlook : ∀ (n : ℕ) (l : String), (n, l) ∈ vs.filterMap likertMatch →
      ((vs.filterMap likertMatch).foldl (fun acc p => assocUpdate acc p.1 p.2) []).lookup n
        = some l :=
    fun n l h => lookup_foldl_consistent _ [] n l (Or.inl h)
      (fun l' h' => hcons n l' l h' h)
  have hl1 := hlook 1 "Tak" hmem1
  have hl2 := hlook 2 "Nie" hmem2
  have hl6 := hlook 6 "Nie wiem" hmem6
  simp only [detectValues]
  rw [if_neg hlen, if_neg hnm, hcount,
    if_pos (show 5 * vs.length > 2 * vs.length from by
      have := Nat.pos_of_ne_zero hlen
      omega), hall]
  simp only [List.filter_cons, List.filter_nil, List.filterMap_cons, List.filterMap_nil]
  rw [hl1, hl2, hl6]
  decide

/-- C8: a column whose raw cells repeat `["1: Tak", "2: Nie", "6: Nie wiem"]`
any positive number of times classifies as likert with sentinel code set
`{6}`, usable `scale_min = 1` and `scale_max = 2` (bounds over the
non-sentinel codes; the all-sentinel fallback to all codes is the
`boundSrc` branch of the definition), and the code→label mapping. -/
theorem likert_triple_classification (k : ℕ) (hk : 0 < k) :
    detect_column_type ((List.replicate k (likertTriple.map some)).flatten)
      = .likert 1 2 [(1, "Tak"), (2, "Nie"), (6, "Nie wiem")] [6] := by
  have hproc : ∀ m : ℕ,
      procVals ((List.replicate m (likertTriple.map some)).flatten)
        = (List.replicate m likertTriple).flatten := by
    intro m
    induction m with
    | zero => rfl
    | succ mm ih =>
      simp only [procVals, List.replicate_succ, List.flatten_cons, List.filterMap_append,
        List.map_append, List.filter_append] at ih ⊢
      rw [ih]
      rfl
  rw [detect_column_type, hproc k]
  apply detectValues_of_triple
  · intro v hv
    obtain ⟨l, hl, hvl⟩ := List.mem_flatten.mp hv
    rw [(List.eq_of_mem_replicate hl : l = likertTriple)] at hvl
    rcases List.mem_cons.mp hvl with h | hvl'
    · exact Or.inl h
    rcases List.mem_cons.mp hvl' with h | hvl''
    · exact Or.inr (Or.inl h)
    rcases List.mem_cons.mp hvl'' with h | hvl'''
    · exact Or.inr (Or.inr h)
    · exact absurd hvl''' (List.not_mem_nil _)
  all_goals
    obtain ⟨m, rfl⟩ : ∃ m, k = m + 1 := ⟨k - 1, by omega⟩
    rw [List.replicate_succ, List.flatten_cons]
    exact List.mem_append_left _ (by decide)

/-- C8 witness: the theorem at two repetitions. -/
theorem likert_triple_classification_witness :
    detect_column_type ((List.replicate 2 (likertTriple.map some)).flatten)
      = .likert 1 2 [(1, "Tak"), (2, "Nie"), (6, "Nie wiem")] [6] :=
  likert_triple_classification 2 (by decide)

/-! ## Claim C5: order-(in)dependence of the column signature -/

theorem pyLt_irrefl (a : PyFloat) : pyLt a a = false := by
  cases a <;> simp [pyLt]

theorem pyLt_trans {a b c : PyFloat} (h1 : pyLt a b = true) (h2 : pyLt b c = true) :
    pyLt a c = true := by
  cases a <;> cases b <;> cases c <;> simp_all [pyLt]
  exact lt_trans h1 h2

theorem pyLt_conn {a b : PyFloat} (ha : a ≠ .nan) (hb : b ≠ .nan)
    (h1 : pyLt a b = false) (h2 : pyLt b a = false) : a = b := by
  cases a <;> cases b <;> simp_all [pyLt]
  exact le_antisymm h2 h1

/-- The fold of Python's `min`/`max` step returns an element of the scanned
values that no scanned element beats, provided no `nan` is involved. -/
theorem foldl_best_spec (r : PyFloat → PyFloat → Bool)
    (htr : ∀ {a b c : PyFloat}, r a b = true → r b c = true → r a c = true)
    (htot : ∀ {a b : PyFloat}, a ≠ .nan → b ≠ .nan → r b a = false →
      b = a ∨ r a b = true)
    (hirr : ∀ a, r a a = false) :
    ∀ (t : List PyFloat) (acc : PyFloat), acc ≠ .nan → (∀ x ∈ t, x ≠ .nan) →
      (t.foldl (fun cur x => if r x cur then x else cur) acc ∈ acc :: t) ∧
      (∀ x ∈ acc :: t, r x (t.foldl (fun cur x => if r x cur then x else cur) acc) = false) := by
  intro t
  induction t with
  | nil =>
    intro acc _ _
    refine ⟨List.mem_cons_self _ _, ?_⟩
    intro x hx
    rcases List.mem_cons.mp hx with rfl | hx'
    · exact hirr x
    · exact absurd hx' (List.not_mem_nil _)
  | cons b t ih =>
    intro acc hacc hnn
    have hb : b ≠ .nan := hnn b (List.mem_cons_self b t)
    have hnn' : ∀ x ∈ t, x ≠ .nan := fun x hx => hnn x (List.mem_cons_of_mem b hx)
    have hstep : (if r b acc then b else acc) ≠ .nan := by
      by_cases hr : r b acc = true
      · rw [if_pos hr]; exact hb
      · rw [if_neg hr]; exact hacc
    obtain ⟨hmem, hmin⟩ := ih (if r b acc then b else acc) hstep hnn'
    constructor
    · simp only [List.foldl_cons]
      by_cases hr : r b acc = true
      · rw [if_pos hr] at hmem ⊢
        rcases List.mem_cons.mp hmem with h | h
        · rw [h]
          exact List.mem_cons_of_mem acc (List.mem_cons_self b t)
        · exact List.mem_cons_of_mem acc (List.mem_cons_of_mem b h)
      · rw [if_neg hr] at hmem ⊢
        rcases List.mem_cons.mp hmem with h | h
        · rw [h]
          exact List.mem_cons_self _ _
        · exact List.mem_cons_of_mem acc (List.mem_cons_of_mem b h)
    · intro x hx
      simp only [List.foldl_cons]
      set m := t.foldl (fun cur y => if r y cur then y else cur)
        (if r b acc then b else acc) with hm
      rcases List.mem_cons.mp hx with heq | hx'
      · rw [heq]
        by_cases hr : r b acc = true
        · have hbres : r b m = false :=
            hmin b (by rw [if_pos hr]; exact List.mem_cons_self _ _)
          by_cases hx2 : r acc m = true
          · exact absurd (htr hr hx2) (by rw [hbres]; exact Bool.false_ne_true)
          · exact Bool.eq_false_iff.mpr hx2
        · exact hmin acc (by rw [if_neg hr]; exact List.mem_cons_self _ _)
      · rcases List.mem_cons.mp hx' with heq | hx''
        · rw [heq]
          by_cases hr : r b acc = true
          · exact hmin b (by rw [if_pos hr]; exact List.mem_cons_self _ _)
          · have hares : r acc m = false :=
              hmin acc (by rw [if_neg hr]; exact List.mem_cons_self _ _)
            rcases htot hacc hb (Bool.eq_false_iff.mpr hr) with heq2 | hlt
            · rw [heq2]
              exact hares
            · by_cases hx2 : r b m = true
              · exact absurd (htr hlt hx2) (by rw [hares]; exact Bool.false_ne_true)
              · exact Bool.eq_false_iff.mpr hx2
        · exact hmin x (List.mem_cons_of_mem _ hx'')

theorem listPyMin_perm {l l' : List PyFloat} (hp : l.Perm l')
    (hnn : ∀ x ∈ l, x ≠ .nan) : listPyMin l = listPyMin l' := by
  have hnn' : ∀ x ∈ l', x ≠ .nan := fun x hx => hnn x (hp.mem_iff.mpr hx)
  cases l with
  | nil =>
    cases l' with
    | nil => rfl
    | cons b t => exact absurd (hp.length_eq) (by simp)
  | cons a s =>
    cases l' with
    | nil => exact absurd (hp.length_eq) (by simp)
    | cons b t =>
      have htot : ∀ {x y : PyFloat}, x ≠ .nan → y ≠ .nan → pyLt y x = false →
          y = x ∨ pyLt x y = true := by
        intro x y hx hy hxy
        by_cases h2 : pyLt x y = true
        · exact Or.inr h2
        · exact Or.inl (pyLt_conn hy hx hxy (Bool.eq_false_iff.mpr h2))
      obtain ⟨hm1, hmin1⟩ := foldl_best_spec pyLt (fun h1 h2 => pyLt_trans h1 h2)
        htot pyLt_irrefl s a (hnn a (List.mem_cons_self a s))
        (fun x hx => hnn x (List.mem_cons_of_mem a hx))
      obtain ⟨hm2, hmin2⟩ := foldl_best_spec pyLt (fun h1 h2 => pyLt_trans h1 h2)
        htot pyLt_irrefl t b (hnn' b (List.mem_cons_self b t))
        (fun x hx => hnn' x (List.mem_cons_of_mem b hx))
      have e1 : listPyMin (a :: s) ∈ a :: s := hm1
      have e2 : listPyMin (b :: t) ∈ b :: t := hm2
      have h12 : pyLt (listPyMin (a :: s)) (listPyMin (b :: t)) = false :=
        hmin2 _ (hp.mem_iff.mp e1)
      have h21 : pyLt (listPyMin (b :: t)) (listPyMin (a :: s)) = false :=
        hmin1 _ (hp.mem_iff.mpr e2)
      exact pyLt_conn (hnn _ e1) (hnn' _ e2) h12 h21

theorem listPyMax_perm {l l' : List PyFloat} (hp : l.Perm l')
    (hnn : ∀ x ∈ l, x ≠ .nan) : listPyMax l = listPyMax l' := by
  have hnn' : ∀ x ∈ l', x ≠ .nan := fun x hx => hnn x (hp.mem_iff.mpr hx)
  cases l with
  | nil =>
    cases l' with
    | nil => rfl
    | cons b t => exact absurd (hp.length_eq) (by simp)
  | cons a s =>
    cases l' with
    | nil => exact absurd (hp.length_eq) (by simp)
    | cons b t =>
      have htr : ∀ {x y z : PyFloat}, (fun u v => pyLt v u) x y = true →
          (fun u v => pyLt v u) y z = true → (fun u v => pyLt v u) x z = true :=
        fun h1 h2 => pyLt_trans h2 h1
      have htot : ∀ {x y : PyFloat}, x ≠ .nan → y ≠ .nan →
          (fun u v => pyLt v u) y x = false → y = x ∨ (fun u v => pyLt v u) x y = true := by
        intro x y hx hy hxy
        by_cases h2 : pyLt y x = true
        · exact Or.inr h2
        · exact Or.inl (pyLt_conn hy hx (Bool.eq_false_iff.mpr h2) hxy)
      have hirr : ∀ a, (fun u v => pyLt v u) a a = false := pyLt_irrefl
      obtain ⟨hm1, hmin1⟩ := foldl_best_spec (fun u v => pyLt v u) htr
        htot hirr s a (hnn a (List.mem_cons_self a s))
        (fun x hx => hnn x (List.mem_cons_of_mem a hx))
      obtain ⟨hm2, hmin2⟩ := foldl_best_spec (fun u v => pyLt v u) htr
        htot hirr t b (hnn' b (List.mem_cons_self b t))
        (fun x hx => hnn' x (List.mem_cons_of_mem b hx))
      have e1 : listPyMax (a :: s) ∈ a :: s := hm1
      have e2 : listPyMax (b :: t) ∈ b :: t := hm2
      have h12 : pyLt (listPyMax (b :: t)) (listPyMax (a :: s)) = false :=
        hmin2 _ (hp.mem_iff.mp e1)
      have h21 : pyLt (listPyMax (a :: s)) (listPyMax (b :: t)) = false :=
        hmin1 _ (hp.mem_iff.mpr e2)
      exact pyLt_conn (hnn _ e1) (hnn' _ e2) h21 h12

/-- Order invariance of the classifier body, under the two hypotheses the
source actually needs: no likert code carries two distinct label texts
(otherwise `labels[n] = ...` keeps the last occurrence), and no value parses
to the IEEE `nan` (otherwise `min`/`max` over the parsed floats are
order-dependent). -/
theorem detectValues_perm (vs vs' : List String) (hp : vs.Perm vs')
    (hcons : ∀ (n : ℕ) (l l' : String), (n, l) ∈ vs.filterMap likertMatch →
      (n, l') ∈ vs.filterMap likertMatch → l = l')
    (hnan : ∀ v ∈ vs, ¬ pyFloat v = some .nan) :
    detectValues vs = detectValues vs' := by
  have hpp : (vs.filterMap likertMatch).Perm (vs'.filterMap likertMatch) :=
    hp.filterMap _
  have h_len : vs.length = vs'.length := hp.length_eq
  have h_all : (vs.all fun v => v == "MENTIONED" || v == "NOT MENTIONED")
      = (vs'.all fun v => v == "MENTIONED" || v == "NOT MENTIONED") := by
    rw [Bool.eq_iff_iff, List.all_eq_true, List.all_eq_true]
    constructor
    · exact fun h x hx => h x (hp.mem_iff.mpr hx)
    · exact fun h x hx => h x (hp.mem_iff.mp hx)
  have h_cnt : vs.countP (fun v => (likertMatch v).isSome)
      = vs'.countP (fun v => (likertMatch v).isSome) := hp.countP_eq _
  have h_sorted : List.insertionSort (· ≤ ·) ((vs.filterMap likertMatch).map Prod.fst).dedup
      = List.insertionSort (· ≤ ·) ((vs'.filterMap likertMatch).map Prod.fst).dedup :=
    List.eq_of_perm_of_sorted
      ((List.perm_insertionSort _ _).trans
        (((hpp.map Prod.fst).dedup).trans (List.perm_insertionSort _ _).symm))
      (List.sorted_insertionSort _ _) (List.sorted_insertionSort _ _)
  have h_look : ∀ n ∈ List.insertionSort (· ≤ ·)
      ((vs'.filterMap likertMatch).map Prod.fst).dedup,
      ((vs.filterMap likertMatch).foldl (fun acc p => assocUpdate acc p.1 p.2) []).lookup n
        = ((vs'.filterMap likertMatch).foldl (fun acc p => assocUpdate acc p.1 p.2) []).lookup n := by
    intro n hn
    rw [(List.perm_insertionSort _ _).mem_iff, List.mem_dedup] at hn
    obtain ⟨q, hq, hqn⟩ := List.mem_map.mp hn
    obtain ⟨n', l⟩ := q
    subst hqn
    have hmem' : ((n', l) : ℕ × String) ∈ vs'.filterMap likertMatch := hq
    have hmem : ((n', l) : ℕ × String) ∈ vs.filterMap likertMatch := hpp.mem_iff.mpr hq
    rw [lookup_foldl_consistent _ [] n' l (Or.inl hmem)
        (fun l' h' => hcons n' l' l h' hmem),
      lookup_foldl_consistent _ [] n' l (Or.inl hmem')
        (fun l' h' => hcons n' l' l (hpp.mem_iff.mpr h') hmem)]
  have h_payload : (List.insertionSort (· ≤ ·)
      ((vs'.filterMap likertMatch).map Prod.fst).dedup).filterMap
        (fun n => (((vs.filterMap likertMatch).foldl
          (fun acc p => assocUpdate acc p.1 p.2) []).lookup n).map fun l => (n, l))
      = (List.insertionSort (· ≤ ·)
      ((vs'.filterMap likertMatch).map Prod.fst).dedup).filterMap
        (fun n => (((vs'.filterMap likertMatch).foldl
          (fun acc p => assocUpdate acc p.1 p.2) []).lookup n).map fun l => (n, l)) :=
    List.filterMap_congr fun n hn => by rw [h_look n hn]
  have h_special : (List.insertionSort (· ≤ ·)
      ((vs'.filterMap likertMatch).map Prod.fst).dedup).filter
        (fun n => SENTINEL_CUES.any fun sv =>
          strContains (pyLower ((((vs.filterMap likertMatch).foldl
            (fun acc p => assocUpdate acc p.1 p.2) []).lookup n).getD "")) sv)
      = (List.insertionSort (· ≤ ·)
      ((vs'.filterMap likertMatch).map Prod.fst).dedup).filter
        (fun n => SENTINEL_CUES.any fun sv =>
          strContains (pyLower ((((vs'.filterMap likertMatch).foldl
            (fun acc p => assocUpdate acc p.1 p.2) []).lookup n).getD "")) sv) :=
    List.filter_congr fun n hn => by rw [h_look n hn]
  have hnanf : ∀ x ∈ vs.filterMap pyFloat, x ≠ PyFloat.nan := by
    intro x hx hxn
    obtain ⟨v, hv, hvx⟩ := List.mem_filterMap.mp hx
    subst hxn
    exact hnan v hv hvx
  have h_min : listPyMin (vs.filterMap pyFloat) = listPyMin (vs'.filterMap pyFloat) :=
    listPyMin_perm (hp.filterMap _) hnanf
  have h_max : listPyMax (vs.filterMap pyFloat) = listPyMax (vs'.filterMap pyFloat) :=
    listPyMax_perm (hp.filterMap _) hnanf
  have h_numlen : (vs.filterMap pyFloat).length = (vs'.filterMap pyFloat).length :=
    (hp.filterMap _).length_eq
  have h_textlen : (vs.filter fun v =>
        (pyFloat v).isNone && !(SPECIAL_VALUES.contains (pyStrip (pyLower v)))).length
      = (vs'.filter fun v =>
        (pyFloat v).isNone && !(SPECIAL_VALUES.contains (pyStrip (pyLower v)))).length :=
    (hp.filter _).length_eq
  have h_dedlen : vs.dedup.length = vs'.dedup.length := hp.dedup.length_eq
  have h_sortstr : List.insertionSort strLe vs.dedup = List.insertionSort strLe vs'.dedup :=
    List.eq_of_perm_of_sorted
      ((List.perm_insertionSort _ _).trans
        (hp.dedup.trans (List.perm_insertionSort _ _).symm))
      (List.sorted_insertionSort _ _) (List.sorted_insertionSort _ _)
  simp only [detectValues]
  rw [h_len, h_all, h_cnt, h_sorted, h_payload, h_special, h_min, h_max, h_numlen,
    h_textlen, h_dedlen, h_sortstr]

/-- C5, counterexample: the code→label mapping keeps the *last* occurrence
of a repeated likert code, so permuting two cells with the same code and
different label texts changes the returned signature payload. -/
theorem detect_column_type_order_dependent :
    detect_column_type [some "1: A", some "1: B", some "2: C"]
      = .likert 1 2 [(1, "B"), (2, "C")] [] ∧
    detect_column_type [some "1: B", some "1: A", some "2: C"]
      = .likert 1 2 [(1, "A"), (2, "C")] [] ∧
    ([some "1: A", some "1: B", some "2: C"] : List (Option String)).Perm
      [some "1: B", some "1: A", some "2: C"] ∧
    ColType.likert 1 2 [(1, "B"), (2, "C")] [] ≠ .likert 1 2 [(1, "A"), (2, "C")] [] := by
  refine ⟨by decide, by decide, ?_, by decide⟩
  exact List.Perm.swap (some "1: B") (some "1: A") [some "2: C"]

/-- C5 (amended): the signature is a pure function of the non-missing value
multiset — order-independent — provided no likert code occurs with two
distinct (stripped) label texts among the cleaned values and no cleaned
value parses to the IEEE `nan` float; without the first proviso the
code→label mapping (and with it the sentinel set and usable bounds) depends
on which occurrence comes last, and without the second the observed
numeric bounds depend on the position of the `nan`. -/
theorem detect_column_type_perm_invariant (cells cells' : List (Option String))
    (hperm : cells.Perm cells')
    (hcons : ∀ (n : ℕ) (l l' : String), (n, l) ∈ (procVals cells).filterMap likertMatch →
      (n, l') ∈ (procVals cells).filterMap likertMatch → l = l')
    (hnan : ∀ v ∈ procVals cells, ¬ pyFloat v = some .nan) :
    detect_column_type cells = detect_column_type cells' := by
  rw [detect_column_type, detect_column_type]
  exact detectValues_perm _ _ (((hperm.filterMap id).map pyStrip).filter _) hcons hnan

/-- C5 witness: the amended theorem on a two-cell column and its swap. -/
theorem detect_column_type_perm_invariant_witness :
    detect_column_type [some "1: Tak", some "2: Nie"]
      = detect_column_type [some "2: Nie", some "1: Tak"] :=
  detect_column_type_perm_invariant _ _ (List.Perm.swap (some "2: Nie") (some "1: Tak") [])
    (by
      intro n l l' h1 h2
      rw [show (procVals [some "1: Tak", some "2: Nie"]).filterMap likertMatch
          = [(1, "Tak"), (2, "Nie")] from by decide] at h1 h2
      rcases List.mem_cons.mp h1 with e1 | h1' <;> rcases List.mem_cons.mp h2 with e2 | h2' <;>
        simp_all)
    (by
      intro v hv
      rw [show procVals [some "1: Tak", some "2: Nie"] = ["1: Tak", "2: Nie"] from by decide] at hv
      rcases List.mem_cons.mp hv with rfl | hv'
      · decide
      rcases List.mem_cons.mp hv' with rfl | hv''
      · decide
      · exact absurd hv'' (List.not_mem_nil _))

/-! ## C1: membership of columns in the detected question groups -/

/-- A signature that opens (or joins) a question group: everything except
`empty` and `open_text`. -/
def isClassified : ColType → Bool
  | .empty => false
  | .openText _ => false
  | _ => true

theorem okThen_ok {α β : Type} (a : α) (f : α → Except String β) :
    okThen (.ok a) f = f a := rfl

theorem notClassified_of_tags (t : ColType)
    (h1 : ¬(ctag t = "likert" ∨ ctag t = "numeric_scale" ∨ ctag t = "multiple_choice"))
    (h2 : ¬ ctag t = "single_choice") (h3 : ¬ ctag t = "empty") :
    isClassified t = false := by
  cases t with
  | empty => exact absurd rfl h3
  | multipleChoice => exact absurd (Or.inr (Or.inr rfl)) h1
  | likert a b c d => exact absurd (Or.inl rfl) h1
  | numericScale a b => exact absurd (Or.inr (Or.inl rfl)) h1
  | openText a => rfl
  | singleChoice a b => exact absurd rfl h2

theorem classified_of_tag3 (t : ColType)
    (h : ctag t = "likert" ∨ ctag t = "numeric_scale" ∨ ctag t = "multiple_choice") :
    isClassified t = true := by
  cases t with
  | empty => rcases h with h | h | h <;> exact absurd h (by decide)
  | openText a =>
    rcases h with h | h | h <;>
      exact absurd h (show ¬ "open_text" = _ from by decide)
  | multipleChoice => rfl
  | likert a b c d => rfl
  | numericScale a b => rfl
  | singleChoice a b => rfl

theorem ctag_ne_empty_of_classified (t : ColType) (h : isClassified t = true) :
    ¬ ctag t = "empty" := by
  cases t with
  | empty => exact absurd h (show ¬ false = true from by decide)
  | openText a => exact absurd h (show ¬ false = true from by decide)
  | multipleChoice => exact show ¬ "multiple_choice" = "empty" from by decide
  | likert a b c d => exact show ¬ "likert" = "empty" from by decide
  | numericScale a b => exact show ¬ "numeric_scale" = "empty" from by decide
  | singleChoice a b => exact show ¬ "single_choice" = "empty" from by decide

theorem notClassified_of_empty (t : ColType) (h : ctag t = "empty") :
    isClassified t = false := by
  cases t with
  | empty => rfl
  | openText a => rfl
  | multipleChoice => exact absurd h (show ¬ "multiple_choice" = "empty" from by decide)
  | likert a b c d => exact absurd h (show ¬ "likert" = "empty" from by decide)
  | numericScale a b => exact absurd h (show ¬ "numeric_scale" = "empty" from by decide)
  | singleChoice a b => exact absurd h (show ¬ "single_choice" = "empty" from by decide)

/-- `pyMin2` of two finite floats is finite. -/
theorem pyMin2_num (a b : ℚ) : ∃ q, pyMin2 (.num a) (.num b) = PyFloat.num q := by
  unfold pyMin2; split
  · exact ⟨b, rfl⟩
  · exact ⟨a, rfl⟩

/-- `pyMax2` of two finite floats is finite. -/
theorem pyMax2_num (a b : ℚ) : ∃ q, pyMax2 (.num a) (.num b) = PyFloat.num q := by
  unfold pyMax2; split
  · exact ⟨b, rfl⟩
  · exact ⟨a, rfl⟩

/-- Folding `mergeMin` over signatures whose numeric-scale bounds are finite
keeps the accumulated bound finite (likert bounds are `ℕ`-valued, hence
finite). -/
theorem foldMergeMin_num (l : List ColType)
    (h : ∀ t ∈ l, ∀ mn mx, t = .numericScale mn mx →
      (∃ q, mn = PyFloat.num q) ∧ (∃ q, mx = PyFloat.num q)) :
    ∀ (acc : Option PyFloat), (∀ v, acc = some v → ∃ q, v = PyFloat.num q) →
    ∀ v, l.foldl (fun a c => mergeMin a (ctScaleMin c)) acc = some v →
      ∃ q, v = PyFloat.num q := by
  induction l with
  | nil => intro acc hacc v hv; exact hacc v hv
  | cons t l ih =>
    intro acc hacc v hv
    refine ih (fun t' ht' => h t' (List.mem_cons_of_mem _ ht')) _ ?_ v hv
    intro w hw
    simp only [] at hw
    have hnum : ∀ x, ctScaleMin t = some x → ∃ q, x = PyFloat.num q := by
      intro x hx
      cases t with
      | likert mn mx ls sp => exact ⟨mn, by cases hx; rfl⟩
      | numericScale mn mx =>
        have hmn := (h _ (List.mem_cons_self _ _) mn mx rfl).1
        injection hx with hx'
        rw [← hx']
        exact hmn
      | empty => cases hx
      | multipleChoice => cases hx
      | openText a => cases hx
      | singleChoice a b => cases hx
    rcases hsc : ctScaleMin t with _ | x
    · rw [hsc] at hw
      exact hacc w (by simpa [mergeMin] using hw)
    · rw [hsc] at hw
      obtain ⟨qx, hqx⟩ := hnum x hsc
      rcases hav : acc with _ | a
      · rw [hav] at hw
        simp only [mergeMin] at hw
        cases hw
        exact ⟨qx, hqx⟩
      · rw [hav] at hw
        obtain ⟨qa, hqa⟩ := hacc a hav
        simp only [mergeMin] at hw
        cases hw
        rw [hqa, hqx]
        exact pyMin2_num qa qx

/-- The `mergeMax` analogue of `foldMergeMin_num`. -/
theorem foldMergeMax_num (l : List ColType)
    (h : ∀ t ∈ l, ∀ mn mx, t = .numericScale mn mx →
      (∃ q, mn = PyFloat.num q) ∧ (∃ q, mx = PyFloat.num q)) :
    ∀ (acc : Option PyFloat), (∀ v, acc = some v → ∃ q, v = PyFloat.num q) →
    ∀ v, l.foldl (fun a c => mergeMax a (ctScaleMax c)) acc = some v →
      ∃ q, v = PyFloat.num q := by
  induction l with
  | nil => intro acc hacc v hv; exact hacc v hv
  | cons t l ih =>
    intro acc hacc v hv
    refine ih (fun t' ht' => h t' (List.mem_cons_of_mem _ ht')) _ ?_ v hv
    intro w hw
    simp only [] at hw
    have hnum : ∀ x, ctScaleMax t = some x → ∃ q, x = PyFloat.num q := by
      intro x hx
      cases t with
      | likert mn mx ls sp => exact ⟨mx, by cases hx; rfl⟩
      | numericScale mn mx =>
        have hmx := (h _ (List.mem_cons_self _ _) mn mx rfl).2
        injection hx with hx'
        rw [← hx']
        exact hmx
      | empty => cases hx
      | multipleChoice => cases hx
      | openText a => cases hx
      | singleChoice a b => cases hx
    rcases hsc : ctScaleMax t with _ | x
    · rw [hsc] at hw
      exact hacc w (by simpa [mergeMax] using hw)
    · rw [hsc] at hw
      obtain ⟨qx, hqx⟩ := hnum x hsc
      rcases hav : acc with _ | a
      · rw [hav] at hw
        simp only [mergeMax] at hw
        cases hw
        exact ⟨qx, hqx⟩
      · rw [hav] at hw
        obtain ⟨qa, hqa⟩ := hacc a hav
        simp only [mergeMax] at hw
        cases hw
        rw [hqa, hqx]
        exact pyMax2_num qa qx

/-- The scale-bound conversion never raises when every numeric-scale bound
in the group is finite. -/
theorem boundInt_fold_min_ok (l : List ColType)
    (h : ∀ t ∈ l, ∀ mn mx, t = .numericScale mn mx →
      (∃ q, mn = PyFloat.num q) ∧ (∃ q, mx = PyFloat.num q)) :
    ∃ z, boundInt (l.foldl (fun a c => mergeMin a (ctScaleMin c)) none) = .ok z := by
  rcases hf : l.foldl (fun a c => mergeMin a (ctScaleMin c)) none with _ | v
  · exact ⟨none, rfl⟩
  · obtain ⟨q, hq⟩ := foldMergeMin_num l h none (by intro v hv; cases hv) v hf
    subst hq
    exact ⟨some (if 0 ≤ q then ⌊q⌋ else ⌈q⌉), rfl⟩

/-- The max analogue of `boundInt_fold_min_ok`. -/
theorem boundInt_fold_max_ok (l : List ColType)
    (h : ∀ t ∈ l, ∀ mn mx, t = .numericScale mn mx →
      (∃ q, mn = PyFloat.num q) ∧ (∃ q, mx = PyFloat.num q)) :
    ∃ z, boundInt (l.foldl (fun a c => mergeMax a (ctScaleMax c)) none) = .ok z := by
  rcases hf : l.foldl (fun a c => mergeMax a (ctScaleMax c)) none with _ | v
  · exact ⟨none, rfl⟩
  · obtain ⟨q, hq⟩ := foldMergeMax_num l h none (by intro v hv; cases hv) v hf
    subst hq
    exact ⟨some (if 0 ≤ q then ⌊q⌋ else ⌈q⌉), rfl⟩

/-- What the gathering loop guarantees in a clean header environment (see
`gatherLoop_spec`): the scanned window ends inside the table, the group
gains exactly the `tag`-typed columns of the window in positional order,
every window index has no QID header and type `tag` or `empty`, the
processed set gains exactly the empty-typed window indices, and the seen
set gains only normalized headers of window indices. -/
abbrev GatherSpec (headers : List String) (ctypes : List ColType) (tag : String)
    (j : ℕ) (processed : List ℕ) (seen : List String) (cols : List ℕ)
    (r : GatherRes) : Prop :=
  r.jFinal ≤ headers.length ∧
  r.cols = cols ++ (List.range' j (r.jFinal - j)).filter
    (fun k => ctag (ctypes.getD k ColType.empty) = tag) ∧
  (∀ k, j ≤ k → k < r.jFinal →
    (split_qid_header (headers.getD k "")).1.isSome = false ∧
    (ctag (ctypes.getD k ColType.empty) = tag ∨ ctag (ctypes.getD k ColType.empty) = "empty")) ∧
  (∀ x, x ∈ r.processed ↔ x ∈ processed ∨
    (j ≤ x ∧ x < r.jFinal ∧ ctag (ctypes.getD x ColType.empty) = "empty")) ∧
  (∀ s, s ∈ r.seen → s ∈ seen ∨
    ∃ k, j ≤ k ∧ k < r.jFinal ∧ s = normHeader (headers.getD k ""))

theorem GatherSpec_exit (headers : List String) (ctypes : List ColType) (tag : String)
    (j : ℕ) (processed : List ℕ) (seen : List String) (cols : List ℕ)
    (labels : List String) (hj : j ≤ headers.length) :
    GatherSpec headers ctypes tag j processed seen cols
      ⟨cols, labels, processed, seen, j⟩ := by
  refine ⟨hj, by simp [Nat.sub_self], ?_, ?_, ?_⟩
  · intro k hk1 hk2
    exact absurd (Nat.lt_of_le_of_lt hk1 hk2) (lt_irrefl j)
  · intro x
    constructor
    · exact Or.inl
    · rintro (hx | ⟨h1, h2, _⟩)
      · exact hx
      · exact absurd (Nat.lt_of_le_of_lt h1 h2) (lt_irrefl j)
  · intro s hs
    exact Or.inl hs

theorem gatherLoop_spec (headers : List String) (ctypes : List ColType) (tag : String)
    (htag : tag ≠ "empty")
    (hnodup : ∀ a b, a < headers.length → b < headers.length →
      normHeader (headers.getD a "") = normHeader (headers.getD b "") → a = b)
    (hmeta : ∀ k, k < headers.length → is_meta (headers.getD k "") = false ∧
      should_exclude (headers.getD k "") = false) :
    ∀ (fuel j : ℕ) (processed : List ℕ) (seen : List String)
      (cols : List ℕ) (labels : List String),
      headers.length - j = fuel → j ≤ headers.length →
      (∀ k, j ≤ k → k < headers.length → normHeader (headers.getD k "") ∉ seen) →
      GatherSpec headers ctypes tag j processed seen cols
        (gatherLoop headers ctypes tag j processed seen cols labels) := by
  intro fuel
  induction fuel with
  | zero =>
    intro j processed seen cols labels hfuel hj hseen
    have hjn : ¬ j < headers.length := by omega
    have hg : gatherLoop headers ctypes tag j processed seen cols labels =
        ⟨cols, labels, processed, seen, j⟩ := by
      rw [gatherLoop]; simp [hjn]
    rw [hg]
    exact GatherSpec_exit headers ctypes tag j processed seen cols labels hj
  | succ m ih =>
    intro j processed seen cols labels hfuel hj hseen
    have hjn : j < headers.length := by omega
    obtain ⟨hm1, hm2⟩ := hmeta j hjn
    have hs3 : normHeader (headers.getD j "") ∉ seen := hseen j le_rfl hjn
    have hfuel' : headers.length - (j + 1) = m := by omega
    by_cases h1 : (split_qid_header (headers.getD j "")).1.isSome = true
    · have hg : gatherLoop headers ctypes tag j processed seen cols labels =
          ⟨cols, labels, processed, seen, j⟩ := by
        rw [gatherLoop, if_pos hjn, if_pos h1]
      rw [hg]
      exact GatherSpec_exit headers ctypes tag j processed seen cols labels (by omega)
    · have h1f : (split_qid_header (headers.getD j "")).1.isSome = false := by
        revert h1; cases (split_qid_header (headers.getD j "")).1.isSome <;> simp
      have horr : ¬ ((is_meta (headers.getD j "") ||
          should_exclude (headers.getD j "")) = true) := by
        rw [hm1, hm2]; decide
      by_cases h4 : ctag (ctypes.getD j ColType.empty) ≠ tag ∧
          ctag (ctypes.getD j ColType.empty) ≠ "empty"
      · have hg : gatherLoop headers ctypes tag j processed seen cols labels =
            ⟨cols, labels, processed, seen, j⟩ := by
          rw [gatherLoop, if_pos hjn, if_neg h1, if_neg horr, if_neg hs3, if_pos h4]
        rw [hg]
        exact GatherSpec_exit headers ctypes tag j processed seen cols labels (by omega)
      · by_cases h5 : ctag (ctypes.getD j ColType.empty) = "empty"
        · -- empty column: mark processed and continue
          have hg : gatherLoop headers ctypes tag j processed seen cols labels =
              gatherLoop headers ctypes tag (j+1) (j :: processed) seen cols labels := by
            rw [gatherLoop, if_pos hjn, if_neg h1, if_neg horr, if_neg hs3, if_neg h4,
              if_pos h5]
          have hseen' : ∀ k, j+1 ≤ k → k < headers.length →
              normHeader (headers.getD k "") ∉ seen :=
            fun k hk1 hk2 => hseen k (by omega) hk2
          obtain ⟨gA, gB, gC, gD, gE⟩ :=
            ih (j+1) (j :: processed) seen cols labels hfuel' (by omega) hseen'
          have hge : j + 1 ≤
              (gatherLoop headers ctypes tag (j+1) (j :: processed) seen cols labels).jFinal :=
            gatherLoop_jFinal_ge headers ctypes tag (j+1) (j :: processed) seen cols labels
          rw [hg]
          set r := gatherLoop headers ctypes tag (j+1) (j :: processed) seen cols labels with hr
          refine ⟨gA, ?_, ?_, ?_, ?_⟩
          · rw [gB, show r.jFinal - j = (r.jFinal - (j+1)) + 1 from by omega,
              List.range'_succ,
              List.filter_cons_of_neg
                (by simp only [decide_eq_true_eq]; rw [h5]; exact Ne.symm htag)]
          · intro k hk1 hk2
            rcases Nat.eq_or_lt_of_le hk1 with rfl | hlt
            · exact ⟨h1f, Or.inr h5⟩
            · exact gC k (by omega) hk2
          · intro x
            rw [gD x]
            constructor
            · rintro (hx | ⟨ha, hb, hc⟩)
              · rcases List.mem_cons.mp hx with rfl | hx'
                · exact Or.inr ⟨le_rfl, by omega, h5⟩
                · exact Or.inl hx'
              · exact Or.inr ⟨by omega, hb, hc⟩
            · rintro (hx | ⟨ha, hb, hc⟩)
              · exact Or.inl (List.mem_cons_of_mem _ hx)
              · by_cases hxj : x = j
                · subst hxj
                  exact Or.inl (List.mem_cons_self _ _)
                · exact Or.inr ⟨by omega, hb, hc⟩
          · intro s hs
            rcases gE s hs with hs' | ⟨k, hk1, hk2, hk3⟩
            · exact Or.inl hs'
            · exact Or.inr ⟨k, by omega, hk2, hk3⟩
        · -- matching column: absorb into the group
          have heq : ctag (ctypes.getD j ColType.empty) = tag := by
            by_contra hne
            exact h4 ⟨hne, h5⟩
          have hg : gatherLoop headers ctypes tag j processed seen cols labels =
              gatherLoop headers ctypes tag (j+1) processed
                (normHeader (headers.getD j "") :: seen)
                (cols ++ [j]) (labels ++ [headers.getD j ""]) := by
            rw [gatherLoop, if_pos hjn, if_neg h1, if_neg horr, if_neg hs3, if_neg h4,
              if_neg h5]
          have hseen' : ∀ k, j+1 ≤ k → k < headers.length →
              normHeader (headers.getD k "") ∉ normHeader (headers.getD j "") :: seen := by
            intro k hk1 hk2
            rw [List.mem_cons]
            push_neg
            refine ⟨fun he => ?_, hseen k (by omega) hk2⟩
            have := hnodup k j hk2 hjn he
            omega
          obtain ⟨gA, gB, gC, gD, gE⟩ :=
            ih (j+1) processed (normHeader (headers.getD j "") :: seen)
              (cols ++ [j]) (labels ++ [headers.getD j ""]) hfuel' (by omega) hseen'
          have hge : j + 1 ≤
              (gatherLoop headers ctypes tag (j+1) processed
                (normHeader (headers.getD j "") :: seen)
                (cols ++ [j]) (labels ++ [headers.getD j ""])).jFinal :=
            gatherLoop_jFinal_ge headers ctypes tag (j+1) processed _ _ _
          rw [hg]
          set r := gatherLoop headers ctypes tag (j+1) processed
            (normHeader (headers.getD j "") :: seen)
            (cols ++ [j]) (labels ++ [headers.getD j ""]) with hr
          refine ⟨gA, ?_, ?_, ?_, ?_⟩
          · rw [gB, List.append_assoc,
              show r.jFinal - j = (r.jFinal - (j+1)) + 1 from by omega,
              List.range'_succ,
              List.filter_cons_of_pos (by simp only [decide_eq_true_eq]; exact heq)]
            rfl
          · intro k hk1 hk2
            rcases Nat.eq_or_lt_of_le hk1 with rfl | hlt
            · exact ⟨h1f, Or.inl heq⟩
            · exact gC k (by omega) hk2
          · intro x
            rw [gD x]
            constructor
            · rintro (hx | ⟨ha, hb, hc⟩)
              · exact Or.inl hx
              · exact Or.inr ⟨by omega, hb, hc⟩
            · rintro (hx | ⟨ha, hb, hc⟩)
              · exact Or.inl hx
              · refine Or.inr ⟨?_, hb, hc⟩
                rcases Nat.eq_or_lt_of_le ha with rfl | h
                · exact absurd (heq.symm.trans hc) htag
                · omega
          · intro s hs
            rcases gE s hs with hs' | ⟨k, hk1, hk2, hk3⟩
            · rcases List.mem_cons.mp hs' with rfl | hss
              · exact Or.inr ⟨j, le_rfl, by omega, rfl⟩
              · exact Or.inl hss
            · exact Or.inr ⟨k, by omega, hk2, hk3⟩

theorem classified_of_single (t : ColType) (h : ctag t = "single_choice") :
    isClassified t = true := by
  cases t with
  | singleChoice a b => rfl
  | empty => exact absurd h (by decide)
  | multipleChoice => exact absurd h (by decide)
  | likert a b c d => exact absurd h (show ¬ "likert" = _ from by decide)
  | numericScale a b => exact absurd h (show ¬ "numeric_scale" = _ from by decide)
  | openText a => exact absurd h (show ¬ "open_text" = _ from by decide)

/-- Full specification of the outer detection loop in a clean environment:
it succeeds, and the concatenated column lists of the returned groups
enumerate, strictly increasingly, exactly the classified (non-empty,
non-open-text) columns from position `i` on. -/
theorem detectLoop_spec (headers : List String) (ctypes : List ColType)
    (hnodup : ∀ a b, a < headers.length → b < headers.length →
      normHeader (headers.getD a "") = normHeader (headers.getD b "") → a = b)
    (hmeta : ∀ k, k < headers.length → is_meta (headers.getD k "") = false ∧
      should_exclude (headers.getD k "") = false)
    (hqid : ∀ k, k < headers.length →
      ((split_qid_header (headers.getD k "")).1.getD "") ∉ EXCLUDE_QIDS)
    (hnum : ∀ k, k < headers.length → ∀ mn mx,
      ctypes.getD k ColType.empty = .numericScale mn mx →
      (∃ q, mn = PyFloat.num q) ∧ (∃ q, mx = PyFloat.num q)) :
    ∀ (fuel i : ℕ) (processed : List ℕ) (seen : List String),
      headers.length - i ≤ fuel →
      (∀ k, i ≤ k → k < headers.length → normHeader (headers.getD k "") ∉ seen) →
      (∀ k, i ≤ k → k < headers.length → k ∈ processed →
        isClassified (ctypes.getD k ColType.empty) = false) →
      ∃ qs, detectLoop headers ctypes i processed seen = .ok qs ∧
        List.Sorted (· < ·) ((qs.map QuestionDef.columns).flatten) ∧
        (∀ c, c ∈ (qs.map QuestionDef.columns).flatten ↔
          (i ≤ c ∧ c < headers.length ∧
            isClassified (ctypes.getD c ColType.empty) = true)) := by
  intro fuel
  induction fuel with
  | zero =>
    intro i processed seen hfuel hseen hproc
    have hin : ¬ i < headers.length := by omega
    have hg : detectLoop headers ctypes i processed seen = .ok [] := by
      rw [detectLoop, dif_neg hin]
    refine ⟨[], hg, by simp, ?_⟩
    intro c
    simp only [List.map_nil, List.flatten_nil, List.not_mem_nil, false_iff]
    rintro ⟨h1, h2, _⟩
    omega
  | succ m ih =>
    intro i processed seen hfuel hseen hproc
    by_cases hin : i < headers.length
    case neg =>
      have hg : detectLoop headers ctypes i processed seen = .ok [] := by
        rw [detectLoop, dif_neg hin]
      refine ⟨[], hg, by simp, ?_⟩
      intro c
      simp only [List.map_nil, List.flatten_nil, List.not_mem_nil, false_iff]
      rintro ⟨h1, h2, _⟩
      omega
    case pos =>
    by_cases hip : i ∈ processed
    · obtain ⟨qs, hEq, hs, hc⟩ := ih (i+1) processed seen (by omega)
        (fun k hk1 hk2 => hseen k (by omega) hk2)
        (fun k hk1 hk2 hk3 => hproc k (by omega) hk2 hk3)
      have hg : detectLoop headers ctypes i processed seen =
          detectLoop headers ctypes (i+1) processed seen := by
        rw [detectLoop, dif_pos hin]
        simp only []
        rw [if_pos hip]
      refine ⟨qs, hg.trans hEq, hs, ?_⟩
      intro c
      rw [hc c]
      constructor
      · rintro ⟨h1, h2, h3⟩
        exact ⟨by omega, h2, h3⟩
      · rintro ⟨h1, h2, h3⟩
        rcases Nat.eq_or_lt_of_le h1 with rfl | hlt
        · have hf := hproc i le_rfl h2 hip
          rw [hf] at h3
          exact absurd h3 (by decide)
        · exact ⟨by omega, h2, h3⟩
    · obtain ⟨hm1, hm2⟩ := hmeta i hin
      have hns : normHeader (headers.getD i "") ∉ seen := hseen i le_rfl hin
      by_cases hct0 : ctag (ctypes.getD i ColType.empty) = "empty"
      · -- empty-typed column: skipped, marked processed
        obtain ⟨qs, hEq, hs, hc⟩ := ih (i+1) (i :: processed) seen (by omega)
          (fun k hk1 hk2 => hseen k (by omega) hk2)
          (by
            intro k hk1 hk2 hk3
            rcases List.mem_cons.mp hk3 with rfl | hk4
            · omega
            · exact hproc k (by omega) hk2 hk4)
        have hg : detectLoop headers ctypes i processed seen =
            detectLoop headers ctypes (i+1) (i :: processed) seen := by
          rw [detectLoop, dif_pos hin]
          simp only []
          rw [if_neg hip, if_pos (Or.inl hct0)]
        refine ⟨qs, hg.trans hEq, hs, ?_⟩
        intro c
        rw [hc c]
        constructor
        · rintro ⟨h1, h2, h3⟩
          exact ⟨by omega, h2, h3⟩
        · rintro ⟨h1, h2, h3⟩
          rcases Nat.eq_or_lt_of_le h1 with rfl | hlt
          · rw [notClassified_of_empty _ hct0] at h3
            exact absurd h3 (by decide)
          · exact ⟨by omega, h2, h3⟩
      · have hcond : ¬(ctag (ctypes.getD i ColType.empty) = "empty" ∨
            is_meta (headers.getD i "") = true ∨
            should_exclude (headers.getD i "") = true ∨
            normHeader (headers.getD i "") ∈ seen) := by
          push_neg
          exact ⟨hct0, by rw [hm1]; decide, by rw [hm2]; decide, hns⟩
        have hq' : ¬ ((split_qid_header (headers.getD i "")).1.getD "") ∈ EXCLUDE_QIDS :=
          hqid i hin
        have hseen1 : ∀ k, i+1 ≤ k → k < headers.length →
            normHeader (headers.getD k "") ∉ normHeader (headers.getD i "") :: seen := by
          intro k hk1 hk2
          rw [List.mem_cons]
          push_neg
          refine ⟨fun he => ?_, hseen k (by omega) hk2⟩
          have := hnodup k i hk2 hin he
          omega
        by_cases h3way : ctag (ctypes.getD i ColType.empty) = "likert" ∨
            ctag (ctypes.getD i ColType.empty) = "numeric_scale" ∨
            ctag (ctypes.getD i ColType.empty) = "multiple_choice"
        · -- scale/likert/multi-choice: gather a group
          have hcl : isClassified (ctypes.getD i ColType.empty) = true :=
            classified_of_tag3 _ h3way
          have gspec := gatherLoop_spec headers ctypes
            (ctag (ctypes.getD i ColType.empty)) hct0 hnodup hmeta
            (headers.length - (i+1)) (i+1) processed
            (normHeader (headers.getD i "") :: seen) [i]
            [pyOrStr (split_qid_header (headers.getD i "")).2.2 (headers.getD i "")]
            rfl (by omega) hseen1
          have hgei : i + 1 ≤ (gatherLoop headers ctypes
              (ctag (ctypes.getD i ColType.empty)) (i+1) processed
              (normHeader (headers.getD i "") :: seen) [i]
              [pyOrStr (split_qid_header (headers.getD i "")).2.2 (headers.getD i "")]).jFinal :=
            gatherLoop_jFinal_ge headers ctypes _ (i+1) processed _ _ _
          rw [detectLoop, dif_pos hin]
          simp only []
          rw [if_neg hip, if_neg hcond, if_neg hq', if_pos h3way]
          set gr := gatherLoop headers ctypes
            (ctag (ctypes.getD i ColType.empty)) (i+1) processed
            (normHeader (headers.getD i "") :: seen) [i]
            [pyOrStr (split_qid_header (headers.getD i "")).2.2 (headers.getD i "")] with hgr
          obtain ⟨gA, gB, gC, gD, gE⟩ := gspec
          have hcolsmem : ∀ c, c ∈ gr.cols ↔ (c = i ∨ (i+1 ≤ c ∧ c < gr.jFinal ∧
              ctag (ctypes.getD c ColType.empty) = ctag (ctypes.getD i ColType.empty))) := by
            intro c
            rw [gB, List.singleton_append, List.mem_cons, List.mem_filter,
              List.mem_range'_1, decide_eq_true_eq]
            constructor
            · rintro (rfl | ⟨⟨ha, hb⟩, hp⟩)
              · exact Or.inl rfl
              · exact Or.inr ⟨ha, by omega, hp⟩
            · rintro (rfl | ⟨ha, hb, hp⟩)
              · exact Or.inl rfl
              · exact Or.inr ⟨⟨ha, by omega⟩, hp⟩
          have hmcts : ∀ t ∈ gr.cols.map (fun c => ctypes.getD c ColType.empty),
              ∀ mn mx, t = .numericScale mn mx →
              (∃ q, mn = PyFloat.num q) ∧ (∃ q, mx = PyFloat.num q) := by
            intro t ht mn mx heq
            obtain ⟨c, hcm, rfl⟩ := List.mem_map.mp ht
            have hci : c < headers.length := by
              rcases (hcolsmem c).mp hcm with rfl | ⟨h1, h2, _⟩
              · exact hin
              · omega
            exact hnum c hci mn mx heq
          obtain ⟨zmin, hzmin⟩ := boundInt_fold_min_ok _ hmcts
          obtain ⟨zmax, hzmax⟩ := boundInt_fold_max_ok _ hmcts
          have hseen2 : ∀ k, gr.jFinal ≤ k → k < headers.length →
              normHeader (headers.getD k "") ∉ gr.seen := by
            intro k hk1 hk2 hkin
            rcases gE _ hkin with hsn | ⟨k', hk'1, hk'2, hk'3⟩
            · rcases List.mem_cons.mp hsn with heqn | hsn'
              · have := hnodup k i hk2 hin heqn
                omega
              · exact hseen k (by omega) hk2 hsn'
            · have := hnodup k k' hk2 (by omega) hk'3
              omega
          have hproc2 : ∀ k, gr.jFinal ≤ k → k < headers.length →
              k ∈ gr.cols ++ gr.processed →
              isClassified (ctypes.getD k ColType.empty) = false := by
            intro k hk1 hk2 hkin
            rcases List.mem_append.mp hkin with hkc | hkp
            · rcases (hcolsmem k).mp hkc with rfl | ⟨h1, h2, _⟩
              · exact absurd (le_trans hgei hk1) (by omega)
              · exact absurd hk1 (by omega)
            · rcases (gD k).mp hkp with hkp' | ⟨h1, h2, h3⟩
              · exact hproc k (by omega) hk2 hkp'
              · exact notClassified_of_empty _ h3
          obtain ⟨rest, hrEq, hrS, hrC⟩ := ih gr.jFinal (gr.cols ++ gr.processed) gr.seen
            (by omega) hseen2 hproc2
          simp only [hzmin, okThen_ok, hzmax, hrEq]
          refine ⟨_, rfl, ?_, ?_⟩
          · -- sortedness
            simp only [List.map_cons, List.flatten_cons]
            refine List.pairwise_append.mpr ⟨?_, hrS, ?_⟩
            · rw [gB, List.singleton_append]
              refine List.pairwise_cons.mpr ⟨?_, ?_⟩
              · intro b hb
                have := (List.mem_filter.mp hb).1
                have := List.mem_range'_1.mp this
                omega
              · exact List.Pairwise.filter _ (List.pairwise_lt_range' _ _)
            · intro a ha b hb
              have hbj : gr.jFinal ≤ b := ((hrC b).mp hb).1
              rcases (hcolsmem a).mp ha with rfl | ⟨h1, h2, _⟩
              · omega
              · omega
          · intro c
            simp only [List.map_cons, List.flatten_cons, List.mem_append]
            rw [hcolsmem c, hrC c]
            constructor
            · rintro ((rfl | ⟨h1, h2, hp⟩) | ⟨h1, h2, h3⟩)
              · exact ⟨le_rfl, hin, hcl⟩
              · refine ⟨by omega, by omega, classified_of_tag3 _ ?_⟩
                rw [hp]
                exact h3way
              · exact ⟨by omega, h2, h3⟩
            · rintro ⟨h1, h2, h3⟩
              by_cases hci : c = i
              · exact Or.inl (Or.inl hci)
              · by_cases hcj : c < gr.jFinal
                · have hc2 := gC c (by omega) hcj
                  rcases hc2.2 with htagc | hempc
                  · exact Or.inl (Or.inr ⟨by omega, hcj, htagc⟩)
                  · rw [notClassified_of_empty _ hempc] at h3
                    exact absurd h3 (by decide)
                · exact Or.inr ⟨by omega, h2, h3⟩
        · by_cases hsc : ctag (ctypes.getD i ColType.empty) = "single_choice"
          · -- single choice: a singleton group, then continue at i+1
            obtain ⟨rest, hrEq, hrS, hrC⟩ := ih (i+1) (i :: processed)
              (normHeader (headers.getD i "") :: seen) (by omega) hseen1
              (by
                intro k hk1 hk2 hk3
                rcases List.mem_cons.mp hk3 with rfl | hk4
                · omega
                · exact hproc k (by omega) hk2 hk4)
            rw [detectLoop, dif_pos hin]
            simp only []
            rw [if_neg hip, if_neg hcond, if_neg hq', if_neg h3way, if_pos hsc]
            simp only [hrEq, okThen_ok]
            refine ⟨_, rfl, ?_, ?_⟩
            · simp only [List.map_cons, List.flatten_cons, List.singleton_append]
              refine List.pairwise_cons.mpr ⟨?_, hrS⟩
              intro b hb
              have := ((hrC b).mp hb).1
              omega
            · intro c
              simp only [List.map_cons, List.flatten_cons, List.singleton_append,
                List.mem_cons]
              rw [hrC c]
              constructor
              · rintro (rfl | ⟨h1, h2, h3⟩)
                · exact ⟨le_rfl, hin, classified_of_single _ hsc⟩
                · exact ⟨by omega, h2, h3⟩
              · rintro ⟨h1, h2, h3⟩
                rcases Nat.eq_or_lt_of_le h1 with rfl | hlt
                · exact Or.inl rfl
                · exact Or.inr ⟨by omega, h2, h3⟩
          · -- unclassified (open text): consumed without a group
            have hncl : isClassified (ctypes.getD i ColType.empty) = false :=
              notClassified_of_tags _ h3way hsc hct0
            obtain ⟨qs, hEq, hs, hc⟩ := ih (i+1) (i :: processed)
              (normHeader (headers.getD i "") :: seen) (by omega) hseen1
              (by
                intro k hk1 hk2 hk3
                rcases List.mem_cons.mp hk3 with rfl | hk4
                · omega
                · exact hproc k (by omega) hk2 hk4)
            have hg : detectLoop headers ctypes i processed seen =
                detectLoop headers ctypes (i+1) (i :: processed)
                  (normHeader (headers.getD i "") :: seen) := by
              rw [detectLoop, dif_pos hin]
              simp only []
              rw [if_neg hip, if_neg hcond, if_neg hq', if_neg h3way, if_neg hsc]
            refine ⟨qs, hg.trans hEq, hs, ?_⟩
            intro c
            rw [hc c]
            constructor
            · rintro ⟨h1, h2, h3⟩
              exact ⟨by omega, h2, h3⟩
            · rintro ⟨h1, h2, h3⟩
              rcases Nat.eq_or_lt_of_le h1 with rfl | hlt
              · rw [hncl] at h3
                exact absurd h3 (by decide)
              · exact ⟨by omega, h2, h3⟩

/-- C1, counterexample: an `open_text` column is none of empty, metadata,
excluded, duplicate or excluded-identifier, yet `auto_detect_questions`
returns no group at all for it — the final `else` of the loop only marks it
processed, so it is silently dropped rather than becoming a singleton
group. -/
theorem auto_detect_open_text_dropped :
    is_meta "Opinia" = false ∧ should_exclude "Opinia" = false ∧
    (split_qid_header "Opinia").1 = none ∧
    detect_column_type
      (["a","b","c","d","e","f","g","h","i","j","k","l","m","n","o","p"].map some) =
      ColType.openText 16 ∧
    auto_detect_questions
      [⟨"Opinia",
        ["a","b","c","d","e","f","g","h","i","j","k","l","m","n","o","p"].map some⟩] =
      .ok [] := by
  refine ⟨by decide, by decide, by decide, by decide, ?_⟩
  show detectLoop ["Opinia"]
    [detect_column_type
      (["a","b","c","d","e","f","g","h","i","j","k","l","m","n","o","p"].map some)]
    0 [] [] = .ok []
  rw [show detect_column_type
      (["a","b","c","d","e","f","g","h","i","j","k","l","m","n","o","p"].map some) =
      ColType.openText 16 from by decide]
  rw [detectLoop, dif_pos (show 0 < (["Opinia"] : List String).length from by decide)]
  simp only []
  rw [if_neg (show ¬ (0 : ℕ) ∈ ([] : List ℕ) from by decide)]
  rw [if_neg (show ¬ (ctag (([ColType.openText 16] : List ColType).getD 0 ColType.empty)
      = "empty" ∨
      is_meta ((["Opinia"] : List String).getD 0 "") = true ∨
      should_exclude ((["Opinia"] : List String).getD 0 "") = true ∨
      normHeader ((["Opinia"] : List String).getD 0 "") ∈ ([] : List String))
    from by decide)]
  rw [if_neg (show ¬ ((split_qid_header ((["Opinia"] : List String).getD 0 "")).1.getD "")
      ∈ EXCLUDE_QIDS from by decide)]
  rw [if_neg (show ¬ (ctag (([ColType.openText 16] : List ColType).getD 0 ColType.empty)
      = "likert" ∨
      ctag (([ColType.openText 16] : List ColType).getD 0 ColType.empty) = "numeric_scale" ∨
      ctag (([ColType.openText 16] : List ColType).getD 0 ColType.empty) = "multiple_choice")
    from by decide)]
  rw [if_neg (show ¬ ctag (([ColType.openText 16] : List ColType).getD 0 ColType.empty)
      = "single_choice" from by decide)]
  rw [detectLoop,
    dif_neg (show ¬ 1 < (["Opinia"] : List String).length from by decide)]

/-- C1 (amended): on a table whose normalized headers are duplicate-free,
with no metadata/exclusion-keyword headers, no excluded question
identifier, and finite numeric-scale bounds, `auto_detect_questions`
succeeds, and the concatenation of the returned groups' column lists
contains a column index exactly once if its detected signature is
classified (likert, numeric scale, multiple choice or single choice) and
not at all otherwise — in particular `open_text` columns are dropped, not
kept as singleton groups. -/
theorem auto_detect_membership (df : DataFrame)
    (hnodup : (df.map fun c => normHeader c.header).Nodup)
    (hmeta : ∀ c ∈ df, is_meta c.header = false ∧ should_exclude c.header = false)
    (hqid : ∀ c ∈ df, ((split_qid_header c.header).1.getD "") ∉ EXCLUDE_QIDS)
    (hnum : ∀ c ∈ df, ∀ mn mx, detect_column_type c.cells = .numericScale mn mx →
      (∃ q, mn = PyFloat.num q) ∧ (∃ q, mx = PyFloat.num q)) :
    ∃ qs, auto_detect_questions df = .ok qs ∧
      (∀ k, k ∈ (qs.map QuestionDef.columns).flatten ↔
        ∃ h : k < df.length,
          isClassified (detect_column_type df[k].cells) = true) ∧
      (∀ k, k ∈ (qs.map QuestionDef.columns).flatten →
        ((qs.map QuestionDef.columns).flatten).count k = 1) := by
  have hgetH : ∀ (k : ℕ) (h : k < df.length),
      (df.map fun c => c.header).getD k "" = df[k].header := by
    intro k h
    have h2 : k < (df.map fun c => c.header).length := by simpa using h
    rw [List.getD_eq_getElem _ _ h2, List.getElem_map]
  have hgetT : ∀ (k : ℕ) (h : k < df.length),
      (df.map fun c => detect_column_type c.cells).getD k ColType.empty =
        detect_column_type df[k].cells := by
    intro k h
    have h2 : k < (df.map fun c => detect_column_type c.cells).length := by simpa using h
    rw [List.getD_eq_getElem _ _ h2, List.getElem_map]
  have hnodup' : ∀ a b, a < (df.map fun c => c.header).length →
      b < (df.map fun c => c.header).length →
      normHeader ((df.map fun c => c.header).getD a "") =
        normHeader ((df.map fun c => c.header).getD b "") → a = b := by
    intro a b ha hb he
    have ha' : a < df.length := by simpa using ha
    have hb' : b < df.length := by simpa using hb
    rw [hgetH a ha', hgetH b hb'] at he
    have hA : a < (df.map fun c => normHeader c.header).length := by simpa using ha'
    have hB : b < (df.map fun c => normHeader c.header).length := by simpa using hb'
    have hab : (df.map fun c => normHeader c.header)[a] =
        (df.map fun c => normHeader c.header)[b] := by
      rw [List.getElem_map, List.getElem_map]
      exact he
    exact (List.Nodup.getElem_inj_iff hnodup).mp hab
  have hmeta' : ∀ k, k < (df.map fun c => c.header).length →
      is_meta ((df.map fun c => c.header).getD k "") = false ∧
      should_exclude ((df.map fun c => c.header).getD k "") = false := by
    intro k hk
    have hk' : k < df.length := by simpa using hk
    rw [hgetH k hk']
    exact hmeta _ (List.getElem_mem hk')
  have hqid' : ∀ k, k < (df.map fun c => c.header).length →
      ((split_qid_header ((df.map fun c => c.header).getD k "")).1.getD "")
        ∉ EXCLUDE_QIDS := by
    intro k hk
    have hk' : k < df.length := by simpa using hk
    rw [hgetH k hk']
    exact hqid _ (List.getElem_mem hk')
  have hnum' : ∀ k, k < (df.map fun c => c.header).length → ∀ mn mx,
      (df.map fun c => detect_column_type c.cells).getD k ColType.empty =
        .numericScale mn mx →
      (∃ q, mn = PyFloat.num q) ∧ (∃ q, mx = PyFloat.num q) := by
    intro k hk mn mx heq
    have hk' : k < df.length := by simpa using hk
    rw [hgetT k hk'] at heq
    exact hnum _ (List.getElem_mem hk') mn mx heq
  obtain ⟨qs, hEq, hS, hC⟩ := detectLoop_spec (df.map fun c => c.header)
    (df.map fun c => detect_column_type c.cells) hnodup' hmeta' hqid' hnum'
    (df.map fun c => c.header).length 0 [] [] (by omega)
    (by intro k _ _ h; exact absurd h (List.not_mem_nil _))
    (by intro k _ _ h; exact absurd h (List.not_mem_nil _))
  refine ⟨qs, hEq, ?_, ?_⟩
  · intro k
    rw [hC k]
    constructor
    · rintro ⟨_, h2, h3⟩
      have hk : k < df.length := by simpa using h2
      refine ⟨hk, ?_⟩
      rw [hgetT k hk] at h3
      exact h3
    · rintro ⟨hk, h3⟩
      refine ⟨Nat.zero_le k, by simpa using hk, ?_⟩
      rw [hgetT k hk]
      exact h3
  · intro k hk
    exact List.count_eq_one_of_mem (List.Sorted.nodup hS) hk

/-- C1 witness: the membership theorem applied to a one-column
single-choice table. -/
theorem auto_detect_membership_witness :
    ∃ qs, auto_detect_questions
        [⟨"Płeć", [some "Kobieta", some "Mężczyzna", some "Kobieta"]⟩] = .ok qs ∧
      (∀ k, k ∈ (qs.map QuestionDef.columns).flatten ↔
        ∃ h : k < ([⟨"Płeć", [some "Kobieta", some "Mężczyzna", some "Kobieta"]⟩] :
            DataFrame).length,
          isClassified (detect_column_type
            (([⟨"Płeć", [some "Kobieta", some "Mężczyzna", some "Kobieta"]⟩] :
              DataFrame)[k]).cells) = true) ∧
      (∀ k, k ∈ (qs.map QuestionDef.columns).flatten →
        ((qs.map QuestionDef.columns).flatten).count k = 1) :=
  auto_detect_membership _ (by decide) (by decide) (by decide)
    (by
      intro c hc mn mx heq
      rw [List.mem_singleton] at hc
      subst hc
      have hct : ctag (detect_column_type
          [some "Kobieta", some "Mężczyzna", some "Kobieta"]) = "single_choice" := by
        decide
      rw [heq] at hct
      exact absurd hct (show ¬ "numeric_scale" = "single_choice" from by decide))
